import Mathlib

/-!
Verification development for the 50langs2anki incremental sync engine
(`fiftylangs2anki.py`).  The Python source is shallowly embedded: the
filesystem (the per-language JSON sentence caches and the audio directory)
is an explicit `FSState`, Python dicts become insertion-ordered association
lists with Python dict update semantics, the network is an oracle mapping
the requested lesson-page number and per-lesson attempt index to a
response, and the unbounded `while` loop of `generate_deck` is run on
explicit fuel.  Time (`time.sleep`) and the final `.apkg` packaging are
outside the embedded core, matching the spec's scope.
-/

/-- Python-dict lookup on an insertion-ordered association list. -/
def dictGet {α : Type} : List (String × α) → String → Option α
  | [], _ => none
  | (k, v) :: rest, key => if k = key then some v else dictGet rest key

/-- Python-dict update `d[key] = v`: replace in place if the key is present
(keeping its position), otherwise append at the end. -/
def dictSet {α : Type} : List (String × α) → String → α → List (String × α)
  | [], key, v => [(key, v)]
  | (k, w) :: rest, key, v =>
    if k = key then (key, v) :: rest else (k, w) :: dictSet rest key v

/-- Python `str.strip()` on the underlying character list. -/
def pyStrip (s : String) : String :=
  ⟨((s.data.dropWhile Char.isWhitespace).reverse.dropWhile Char.isWhitespace).reverse⟩

/-- One sentence map, `sound id -> sentence text` (a Python dict). -/
abbrev SentMap := List (String × String)

/-- Contents of one per-language cache file, `lesson id (as string) -> sentence map`. -/
abbrev CacheFile := List (String × SentMap)

/-- The durable filesystem: the sentence-cache files that exist (one per
language code) and the set of audio files present in the audio directory
(by filename, in creation order). -/
structure FSState where
  sentences : List (String × CacheFile)
  audio : List String
  deriving DecidableEq, Repr

/-- `LESSON_LINK.format(src=src, dest=dest, lesson=lesson)`. -/
def LESSON_LINK_fmt (src dest : String) (lesson : Nat) : String :=
  "https://www.50languages.com/" ++ src ++ "/learn/phrasebook-lessons/" ++
    toString lesson ++ "/" ++ dest

/-- The lesson-page URL requested for loop index `i`: the code passes
`lesson=i + 161` (site redesign offset, line 186 of the source). -/
def lesson_link (src dest : String) (i : Nat) : String :=
  LESSON_LINK_fmt src dest (i + 161)

/-- `f'<a href="{lesson_link}">{lesson_link}</a>'`. -/
def lesson_link_html (link : String) : String :=
  "<a href=\"" ++ link ++ "\">" ++ link ++ "</a>"

/-- Contents of the cache file for `lang`, or `[]` when the file is absent
(used to phrase read results; the code itself auto-creates the file first). -/
def fileOf (sents : List (String × CacheFile)) (lang : String) : CacheFile :=
  (dictGet sents lang).getD []

/-- The persisted sentence map of `lang` at cache key `key` (empty when the
file or the key is absent), i.e. `get_cached_sentences(lang).get(key, {})`. -/
def entryOf (sents : List (String × CacheFile)) (lang : String) (key : String) : SentMap :=
  (dictGet (fileOf sents lang) key).getD []

/-- `create_sentences_file`: write an empty JSON object if the file does
not exist yet. -/
def create_sentences_file (fs : FSState) (lang : String) : FSState :=
  match dictGet fs.sentences lang with
  | some _ => fs
  | none => { fs with sentences := dictSet fs.sentences lang [] }

/-- `get_cached_sentences`: ensure the file exists, then parse it.  Returns
the filesystem after the possible auto-creation together with the parsed
contents. -/
def get_cached_sentences (fs : FSState) (lang : String) : FSState × CacheFile :=
  let fs' := create_sentences_file fs lang
  (fs', fileOf fs'.sentences lang)

/-- Result of `get_cached_lesson_sentences`. -/
structure CachedPair where
  fs : FSState
  s1 : SentMap
  s2 : SentMap
  deriving DecidableEq, Repr

/-- `get_cached_lesson_sentences(src, dest, lesson_id)`: read both caches
(the `src` file first), defaulting each lesson entry to `{}`. -/
def get_cached_lesson_sentences (fs : FSState) (src dest : String)
    (lesson_id : String) : CachedPair :=
  let g1 := get_cached_sentences fs src
  let g2 := get_cached_sentences g1.1 dest
  ⟨g2.1, (dictGet g1.2 lesson_id).getD [], (dictGet g2.2 lesson_id).getD []⟩

/-- `cache_lesson_sentences(lang, lesson_id, sentences)`: read the current
file, set the lesson key, write the whole object back. -/
def cache_lesson_sentences (fs : FSState) (lang : String) (lesson_id : String)
    (sentences : SentMap) : FSState :=
  let g := get_cached_sentences fs lang
  { g.1 with sentences := dictSet g.1.sentences lang (dictSet g.2 lesson_id sentences) }

/-- `f"{lang}_{sound_id}.mp3"`. -/
def audio_filename (lang sound_id : String) : String :=
  lang ++ "_" ++ sound_id ++ ".mp3"

/-- Result of `download_audio`: the filesystem afterwards, the returned
filename, and whether a network fetch happened. -/
structure DlResult where
  fs : FSState
  filename : String
  fetched : Bool
  deriving DecidableEq, Repr

/-- `download_audio(session, lang, sound_id)`: return the deterministic
filename; fetch and write the file only when it does not already exist. -/
def download_audio (fs : FSState) (lang sound_id : String) : DlResult :=
  let fn := audio_filename lang sound_id
  if fs.audio.contains fn then ⟨fs, fn, false⟩
  else ⟨{ fs with audio := fs.audio ++ [fn] }, fn, true⟩

/-- One `<td>` cell of a lesson-table row: its text content, the contents
of each `<a>` anchor inside it (kept as raw markup strings, since the code
takes `str(...)` of a contents node), and the `offset_text` attribute of
the element matched by `select_one("[offset_text]")`, when present. -/
structure Cell where
  text : String
  anchors : List (List String)
  offset_elem : Option String
  deriving DecidableEq, Repr

/-- A table row, `entry.select("td")`. -/
abbrev Row := List Cell

/-- What processing one row does: skip it (empty source cell), extract a
triple, or raise (an expected structural element is absent). -/
inductive RowParse where
  | skip
  | fail
  | ok (sound_id src_sentence dest_sentence : String)
  deriving DecidableEq, Repr

/-- The row-parsing slice of the fetch loop (source lines 214-219):
`cols[0].get_text().strip()` with the empty check and `continue`, then
`str(cols[1].select("a")[1].contents[0])`, then
`cols[2].select_one("[offset_text]")["offset_text"]`.  A missing cell,
anchor, contents node or attribute element raises. -/
def parse_row (cols : Row) : RowParse :=
  match cols.get? 0 with
  | none => .fail
  | some c0 =>
    let src_sentence := pyStrip c0.text
    if src_sentence = "" then .skip
    else
      match cols.get? 1 with
      | none => .fail
      | some c1 =>
        match c1.anchors.get? 1 with
        | none => .fail
        | some contents =>
          match contents.get? 0 with
          | none => .fail
          | some dest_sentence =>
            match cols.get? 2 with
            | none => .fail
            | some c2 =>
              match c2.offset_elem with
              | none => .fail
              | some sound_id => .ok sound_id src_sentence dest_sentence

/-- A NoteRecord as assembled by `add_note`: the four note fields
(source sentence, destination sentence, `[sound:...]` audio reference,
lesson link HTML). -/
structure Note where
  src_sentence : String
  dest_sentence : String
  audio_ref : String
  link_html : String
  deriving DecidableEq, Repr

/-- `f"[sound:{filename2}]"`. -/
def soundRef (filename : String) : String := "[sound:" ++ filename ++ "]"

/-- What the remote lesson-page endpoint answers: a connection reset or a
parsed page (the list of `.table tr` rows). -/
inductive FetchOutcome where
  | transient
  | page (rows : List Row)
  deriving DecidableEq, Repr

/-- The remote world for lesson pages: the URL's lesson-number path
component (`i + 161`; with `src`/`dest` fixed this determines the URL
requested by `session.get`) and the attempt index for the current lesson
(0 on first try, bumped on each `ConnectionResetError` retry) give the
response. -/
abbrev Remote := Nat → Nat → FetchOutcome

/-- Deltas produced by the cache-hit emission loop (source lines 190-204). -/
structure HitResult where
  fs : FSState
  notes : List Note
  media : List String
  audioFetches : Nat
  ok : Bool
  deriving DecidableEq, Repr

/-- The cache-hit loop: for each `(sound_id, src_sentence)` of the source
entry, look up `sentences_2[sound_id]` (a missing key raises, `ok = false`),
download the destination audio and emit a note. -/
def hit_loop (dest html : String) (s2 : SentMap) : SentMap → FSState → HitResult
  | [], fs => ⟨fs, [], [], 0, true⟩
  | (sound_id, src_sentence) :: rest, fs =>
    match dictGet s2 sound_id with
    | none => ⟨fs, [], [], 0, false⟩
    | some dest_sentence =>
      let d := download_audio fs dest sound_id
      let r := hit_loop dest html s2 rest d.fs
      ⟨r.fs, ⟨src_sentence, dest_sentence, soundRef d.filename, html⟩ :: r.notes,
        d.filename :: r.media, (if d.fetched then 1 else 0) + r.audioFetches, r.ok⟩

/-- Deltas produced by processing the rows of a fetched page
(source lines 213-234); `maps = none` means a parse exception was raised
after the deltas gathered so far. -/
structure RowsResult where
  fs : FSState
  notes : List Note
  media : List String
  audioFetches : Nat
  maps : Option (SentMap × SentMap)
  deriving DecidableEq, Repr

/-- The fetch-path row loop: skip empty-source rows, otherwise download the
destination audio, emit a note and extend both in-memory sentence maps. -/
def process_rows (dest html : String) :
    List Row → SentMap → SentMap → FSState → RowsResult
  | [], s1, s2, fs => ⟨fs, [], [], 0, some (s1, s2)⟩
  | row :: rows, s1, s2, fs =>
    match parse_row row with
    | .fail => ⟨fs, [], [], 0, none⟩
    | .skip => process_rows dest html rows s1 s2 fs
    | .ok sound_id src_sentence dest_sentence =>
      let d := download_audio fs dest sound_id
      let r := process_rows dest html rows (dictSet s1 sound_id src_sentence)
        (dictSet s2 sound_id dest_sentence) d.fs
      ⟨r.fs, ⟨src_sentence, dest_sentence, soundRef d.filename, html⟩ :: r.notes,
        d.filename :: r.media, (if d.fetched then 1 else 0) + r.audioFetches, r.maps⟩

/-- The engine's run state: the filesystem plus the in-run accumulators
(deck notes in order, `media_files`, the stdout log) and observation
counters for the remote lesson-page and audio fetches performed. -/
structure EngineSt where
  fs : FSState
  notes : List Note
  media : List String
  log : List String
  lessonFetches : Nat
  audioFetches : Nat
  deriving DecidableEq, Repr

/-- Fold a hit-loop delta into the run state. -/
def stepHit (st : EngineSt) (h : HitResult) : EngineSt :=
  { st with
    fs := h.fs
    notes := st.notes ++ h.notes
    media := st.media ++ h.media
    audioFetches := st.audioFetches + h.audioFetches }

/-- Fold a row-loop delta into the run state. -/
def stepRows (st : EngineSt) (r : RowsResult) : EngineSt :=
  { st with
    fs := r.fs
    notes := st.notes ++ r.notes
    media := st.media ++ r.media
    audioFetches := st.audioFetches + r.audioFetches }

/-- Outcome of a run: normal completion, an uncaught exception at a lesson
(parse failure or a `KeyError` on the hit path), or fuel exhaustion (the
unbounded retry loop cut off). -/
inductive RunOutcome where
  | done (st : EngineSt)
  | aborted (lesson : Nat) (st : EngineSt)
  | fuelOut (st : EngineSt)
  deriving DecidableEq, Repr

/-- The final run state carried by any outcome. -/
def outSt : RunOutcome → EngineSt
  | .done st => st
  | .aborted _ st => st
  | .fuelOut st => st

def RunOutcome.isDone : RunOutcome → Bool
  | .done _ => true
  | _ => false

def RunOutcome.isAborted : RunOutcome → Bool
  | .aborted _ _ => true
  | _ => false

def RunOutcome.isFuelOut : RunOutcome → Bool
  | .fuelOut _ => true
  | _ => false

/-- The `while i <= end` loop of `generate_deck` (source lines 181-243),
on explicit fuel; `attempt` counts the `ConnectionResetError` retries of
the current lesson.  Per iteration: log, read both caches for `str(i)`;
on a joint non-empty hit run the emission loop; otherwise fetch the page
(`lesson=i + 161`), on a reset retry the same `i`, on success process the
rows, persist both maps under `str(i)` and advance. -/
def run_loop (remote : Remote) (src dest : String) (endL : Nat) :
    Nat → Nat → Nat → EngineSt → RunOutcome
  | 0, i, _, st => if i > endL then .done st else .fuelOut st
  | fuel + 1, i, attempt, st =>
    if i > endL then .done st else
    let st1 : EngineSt :=
      { st with log := st.log ++ ["\rFetching lesson " ++ toString i ++ "..."] }
    let html := lesson_link_html (lesson_link src dest i)
    let c := get_cached_lesson_sentences st1.fs src dest (toString i)
    let st2 : EngineSt := { st1 with fs := c.fs }
    if !c.s1.isEmpty && !c.s2.isEmpty then
      let h := hit_loop dest html c.s2 c.s1 st2.fs
      if h.ok then run_loop remote src dest endL fuel (i + 1) 0 (stepHit st2 h)
      else .aborted i (stepHit st2 h)
    else
      match remote (i + 161) attempt with
      | .transient =>
        run_loop remote src dest endL fuel i (attempt + 1)
          { st2 with lessonFetches := st2.lessonFetches + 1 }
      | .page rows =>
        let st3 : EngineSt := { st2 with lessonFetches := st2.lessonFetches + 1 }
        let r := process_rows dest html rows [] [] st3.fs
        match r.maps with
        | none => .aborted i (stepRows st3 r)
        | some (m1, m2) =>
          let fs1 := cache_lesson_sentences r.fs src (toString i) m1
          let fs2 := cache_lesson_sentences fs1 dest (toString i) m2
          run_loop remote src dest endL fuel (i + 1) 0 { stepRows st3 r with fs := fs2 }

/-- The embedded core of `generate_deck`: run the while loop from `start`
with fresh accumulators over the given initial filesystem. -/
def generate_deck (remote : Remote) (src dest : String) (start endL : Nat)
    (fs0 : FSState) (fuel : Nat) : RunOutcome :=
  run_loop remote src dest endL fuel start 0
    { fs := fs0, notes := [], media := [], log := [], lessonFetches := 0, audioFetches := 0 }

/-! ### Association-list (Python dict) lemmas -/

theorem dictGet_dictSet_self {α : Type} (d : List (String × α)) (k : String) (v : α) :
    dictGet (dictSet d k v) k = some v := by
  induction d with
  | nil => simp [dictGet, dictSet]
  | cons hd tl ih =>
    obtain ⟨k', w⟩ := hd
    by_cases h : k' = k <;> simp [dictGet, dictSet, h, ih]

theorem dictGet_dictSet_ne {α : Type} (d : List (String × α)) (k k' : String) (v : α)
    (h : k' ≠ k) : dictGet (dictSet d k v) k' = dictGet d k' := by
  induction d with
  | nil => simp [dictGet, dictSet, h, Ne.symm h]
  | cons hd tl ih =>
    obtain ⟨k0, w⟩ := hd
    by_cases h0 : k0 = k
    · subst h0
      simp [dictGet, dictSet, Ne.symm h, h]
    · by_cases h1 : k0 = k' <;> simp [dictGet, dictSet, h0, h1, h, ih]

theorem dictGet_dictSet {α : Type} (d : List (String × α)) (k k' : String) (v : α) :
    dictGet (dictSet d k v) k' = if k' = k then some v else dictGet d k' := by
  by_cases h : k' = k
  · subst h; simp [dictGet_dictSet_self]
  · simp [h, dictGet_dictSet_ne d k k' v h]

theorem dictSet_keys {α : Type} (d : List (String × α)) (k : String) (v : α) :
    (dictSet d k v).map Prod.fst =
      if (dictGet d k).isSome then d.map Prod.fst else d.map Prod.fst ++ [k] := by
  induction d with
  | nil => simp [dictGet, dictSet]
  | cons hd tl ih =>
    obtain ⟨k0, w⟩ := hd
    by_cases h : k0 = k
    · subst h; simp [dictGet, dictSet]
    · simp only [dictSet, if_neg h, List.map_cons, dictGet, ih]
      by_cases h' : (dictGet tl k).isSome <;> simp [h, h']

/-! ### Cache read lemmas -/

theorem create_sentences_file_audio (fs : FSState) (lang : String) :
    (create_sentences_file fs lang).audio = fs.audio := by
  unfold create_sentences_file
  cases dictGet fs.sentences lang <;> simp

theorem dictGet_create_self (fs : FSState) (lang : String) :
    dictGet (create_sentences_file fs lang).sentences lang =
      some (fileOf fs.sentences lang) := by
  unfold create_sentences_file fileOf
  cases h : dictGet fs.sentences lang with
  | none => simp [dictGet_dictSet_self]
  | some f => simp [h]

theorem dictGet_create_isSome (fs : FSState) (lang lang' : String)
    (h : (dictGet fs.sentences lang').isSome) :
    (dictGet (create_sentences_file fs lang).sentences lang').isSome := by
  unfold create_sentences_file
  cases h0 : dictGet fs.sentences lang with
  | some f => simpa [h0] using h
  | none =>
    simp only [dictGet_dictSet]
    by_cases h1 : lang' = lang <;> simp [h1, h]

theorem fileOf_create (fs : FSState) (lang lang' : String) :
    fileOf (create_sentences_file fs lang).sentences lang' =
      fileOf fs.sentences lang' := by
  unfold create_sentences_file
  cases h : dictGet fs.sentences lang with
  | some f => simp
  | none =>
    unfold fileOf
    rw [dictGet_dictSet]
    by_cases h1 : lang' = lang
    · subst h1; simp [h]
    · simp [h1]

theorem entryOf_create (fs : FSState) (lang lang' k : String) :
    entryOf (create_sentences_file fs lang).sentences lang' k =
      entryOf fs.sentences lang' k := by
  unfold entryOf
  rw [fileOf_create]

theorem get_cached_sentences_spec (fs : FSState) (lang : String) :
    get_cached_sentences fs lang =
      (create_sentences_file fs lang, fileOf fs.sentences lang) := by
  simp [get_cached_sentences, fileOf_create]

theorem gcls_fs (fs : FSState) (src dest k : String) :
    (get_cached_lesson_sentences fs src dest k).fs =
      create_sentences_file (create_sentences_file fs src) dest := by
  simp [get_cached_lesson_sentences, get_cached_sentences_spec]

theorem gcls_s1 (fs : FSState) (src dest k : String) :
    (get_cached_lesson_sentences fs src dest k).s1 = entryOf fs.sentences src k := by
  simp [get_cached_lesson_sentences, get_cached_sentences_spec, entryOf]

theorem gcls_s2 (fs : FSState) (src dest k : String) :
    (get_cached_lesson_sentences fs src dest k).s2 = entryOf fs.sentences dest k := by
  simp [get_cached_lesson_sentences, get_cached_sentences_spec, entryOf,
    fileOf_create]

theorem gcls_audio (fs : FSState) (src dest k : String) :
    (get_cached_lesson_sentences fs src dest k).fs.audio = fs.audio := by
  rw [gcls_fs, create_sentences_file_audio, create_sentences_file_audio]

theorem gcls_entry (fs : FSState) (src dest k lang k' : String) :
    entryOf (get_cached_lesson_sentences fs src dest k).fs.sentences lang k' =
      entryOf fs.sentences lang k' := by
  rw [gcls_fs, entryOf_create, entryOf_create]

theorem gcls_isSome (fs : FSState) (src dest k lang : String)
    (h : (dictGet fs.sentences lang).isSome) :
    (dictGet (get_cached_lesson_sentences fs src dest k).fs.sentences lang).isSome := by
  rw [gcls_fs]
  exact dictGet_create_isSome _ _ _ (dictGet_create_isSome _ _ _ h)

theorem gcls_isSome_src (fs : FSState) (src dest k : String) :
    (dictGet (get_cached_lesson_sentences fs src dest k).fs.sentences src).isSome := by
  rw [gcls_fs]
  exact dictGet_create_isSome _ _ _ (by simp [dictGet_create_self])

theorem gcls_isSome_dest (fs : FSState) (src dest k : String) :
    (dictGet (get_cached_lesson_sentences fs src dest k).fs.sentences dest).isSome := by
  rw [gcls_fs]
  simp [dictGet_create_self]

theorem create_of_isSome (fs : FSState) (lang : String)
    (h : (dictGet fs.sentences lang).isSome) :
    create_sentences_file fs lang = fs := by
  unfold create_sentences_file
  cases h0 : dictGet fs.sentences lang with
  | some f => simp
  | none => rw [h0] at h; simp at h

theorem gcls_idem (fs : FSState) (src dest k k' : String) :
    (get_cached_lesson_sentences (get_cached_lesson_sentences fs src dest k).fs
      src dest k').fs = (get_cached_lesson_sentences fs src dest k).fs := by
  rw [gcls_fs (get_cached_lesson_sentences fs src dest k).fs src dest k']
  rw [create_of_isSome _ _ (gcls_isSome_src fs src dest k)]
  rw [create_of_isSome _ _ (gcls_isSome_dest fs src dest k)]

/-! ### Cache write lemmas -/

theorem cls_audio (fs : FSState) (lang k : String) (m : SentMap) :
    (cache_lesson_sentences fs lang k m).audio = fs.audio := by
  simp [cache_lesson_sentences, get_cached_sentences_spec, create_sentences_file_audio]

theorem cls_sentences (fs : FSState) (lang k : String) (m : SentMap) :
    (cache_lesson_sentences fs lang k m).sentences =
      dictSet (create_sentences_file fs lang).sentences lang
        (dictSet (fileOf fs.sentences lang) k m) := by
  simp [cache_lesson_sentences, get_cached_sentences_spec]

theorem dictGet_cls_other (fs : FSState) (lang k : String) (m : SentMap) (lang' : String)
    (h : lang' ≠ lang) :
    dictGet (cache_lesson_sentences fs lang k m).sentences lang' =
      dictGet fs.sentences lang' := by
  rw [cls_sentences, dictGet_dictSet_ne _ _ _ _ h]
  unfold create_sentences_file
  cases h0 : dictGet fs.sentences lang with
  | some f => simp
  | none => simp [dictGet_dictSet_ne _ _ _ _ h]

theorem fileOf_cls_self (fs : FSState) (lang k : String) (m : SentMap) :
    fileOf (cache_lesson_sentences fs lang k m).sentences lang =
      dictSet (fileOf fs.sentences lang) k m := by
  rw [cls_sentences]
  unfold fileOf
  rw [dictGet_dictSet_self]
  rfl

theorem entryOf_cls (fs : FSState) (lang k : String) (m : SentMap) (lang' k' : String) :
    entryOf (cache_lesson_sentences fs lang k m).sentences lang' k' =
      if lang' = lang then (if k' = k then m else entryOf fs.sentences lang' k')
      else entryOf fs.sentences lang' k' := by
  by_cases h : lang' = lang
  · subst h
    unfold entryOf
    rw [fileOf_cls_self, dictGet_dictSet]
    by_cases h1 : k' = k <;> simp [h1]
  · unfold entryOf fileOf
    rw [dictGet_cls_other _ _ _ _ _ h]
    simp [h]

theorem isSomeAt_cls (fs : FSState) (lang k : String) (m : SentMap) (lang' k' : String)
    (h : (dictGet (fileOf fs.sentences lang') k').isSome) :
    (dictGet (fileOf (cache_lesson_sentences fs lang k m).sentences lang') k').isSome := by
  by_cases h0 : lang' = lang
  · subst h0
    rw [fileOf_cls_self, dictGet_dictSet]
    by_cases h1 : k' = k <;> simp [h1, h]
  · unfold fileOf
    rw [dictGet_cls_other _ _ _ _ _ h0]
    exact h

theorem isSomeAt_cls_self (fs : FSState) (lang k : String) (m : SentMap) :
    (dictGet (fileOf (cache_lesson_sentences fs lang k m).sentences lang) k).isSome := by
  rw [fileOf_cls_self, dictGet_dictSet_self]
  simp

/-! ### Audio download lemmas -/

theorem download_audio_filename (fs : FSState) (lang sound_id : String) :
    (download_audio fs lang sound_id).filename = audio_filename lang sound_id := by
  by_cases h : audio_filename lang sound_id ∈ fs.audio <;> simp [download_audio, h]

theorem download_audio_sentences (fs : FSState) (lang sound_id : String) :
    (download_audio fs lang sound_id).fs.sentences = fs.sentences := by
  by_cases h : audio_filename lang sound_id ∈ fs.audio <;> simp [download_audio, h]

theorem download_audio_of_mem (fs : FSState) (lang sound_id : String)
    (h : audio_filename lang sound_id ∈ fs.audio) :
    download_audio fs lang sound_id = ⟨fs, audio_filename lang sound_id, false⟩ := by
  simp [download_audio, h]

theorem download_audio_mem (fs : FSState) (lang sound_id : String) :
    audio_filename lang sound_id ∈ (download_audio fs lang sound_id).fs.audio := by
  by_cases h : audio_filename lang sound_id ∈ fs.audio <;> simp [download_audio, h]

theorem download_audio_mono (fs : FSState) (lang sound_id : String) (x : String)
    (h : x ∈ fs.audio) : x ∈ (download_audio fs lang sound_id).fs.audio := by
  by_cases h0 : audio_filename lang sound_id ∈ fs.audio <;> simp [download_audio, h0, h]

theorem download_audio_fetched (fs : FSState) (lang sound_id : String)
    (h : (download_audio fs lang sound_id).fetched = true) :
    audio_filename lang sound_id ∉ fs.audio := by
  by_cases h0 : audio_filename lang sound_id ∈ fs.audio
  · simp [download_audio, h0] at h
  · exact h0

/-! ### Pure descriptions of the cache-hit emission loop -/

/-- The notes the cache-hit loop emits, as a pure function of the two
cached maps (emission stops at the first missing destination key). -/
def hitNotes (dest html : String) (s2 : SentMap) : SentMap → List Note
  | [] => []
  | (sound_id, src_sentence) :: rest =>
    match dictGet s2 sound_id with
    | none => []
    | some dest_sentence =>
      ⟨src_sentence, dest_sentence, soundRef (audio_filename dest sound_id), html⟩ ::
        hitNotes dest html s2 rest

/-- The media filenames the cache-hit loop appends. -/
def hitMedia (dest : String) (s2 : SentMap) : SentMap → List String
  | [] => []
  | (sound_id, _) :: rest =>
    match dictGet s2 sound_id with
    | none => []
    | some _ => audio_filename dest sound_id :: hitMedia dest s2 rest

/-- Whether the cache-hit loop completes without a KeyError. -/
def hitOk (s2 : SentMap) : SentMap → Bool
  | [] => true
  | (sound_id, _) :: rest =>
    match dictGet s2 sound_id with
    | none => false
    | some _ => hitOk s2 rest

theorem hit_loop_notes (dest html : String) (s2 : SentMap) (l : SentMap) (fs : FSState) :
    (hit_loop dest html s2 l fs).notes = hitNotes dest html s2 l := by
  induction l generalizing fs with
  | nil => simp [hit_loop, hitNotes]
  | cons p rest ih =>
    obtain ⟨sound_id, src_sentence⟩ := p
    cases h : dictGet s2 sound_id <;>
      simp [hit_loop, hitNotes, h, ih, download_audio_filename]

theorem hit_loop_media (dest html : String) (s2 : SentMap) (l : SentMap) (fs : FSState) :
    (hit_loop dest html s2 l fs).media = hitMedia dest s2 l := by
  induction l generalizing fs with
  | nil => simp [hit_loop, hitMedia]
  | cons p rest ih =>
    obtain ⟨sound_id, src_sentence⟩ := p
    cases h : dictGet s2 sound_id <;>
      simp [hit_loop, hitMedia, h, ih, download_audio_filename]

theorem hit_loop_ok (dest html : String) (s2 : SentMap) (l : SentMap) (fs : FSState) :
    (hit_loop dest html s2 l fs).ok = hitOk s2 l := by
  induction l generalizing fs with
  | nil => simp [hit_loop, hitOk]
  | cons p rest ih =>
    obtain ⟨sound_id, src_sentence⟩ := p
    cases h : dictGet s2 sound_id <;> simp [hit_loop, hitOk, h, ih]

theorem hit_loop_sentences (dest html : String) (s2 : SentMap) (l : SentMap) (fs : FSState) :
    (hit_loop dest html s2 l fs).fs.sentences = fs.sentences := by
  induction l generalizing fs with
  | nil => simp [hit_loop]
  | cons p rest ih =>
    obtain ⟨sound_id, src_sentence⟩ := p
    cases h : dictGet s2 sound_id <;>
      simp [hit_loop, h, ih, download_audio_sentences]

theorem hit_loop_audio_mono (dest html : String) (s2 : SentMap) (l : SentMap)
    (fs : FSState) (x : String) (h : x ∈ fs.audio) :
    x ∈ (hit_loop dest html s2 l fs).fs.audio := by
  induction l generalizing fs with
  | nil => simpa [hit_loop] using h
  | cons p rest ih =>
    obtain ⟨sound_id, src_sentence⟩ := p
    cases h0 : dictGet s2 sound_id
    · simpa [hit_loop, h0] using h
    · simpa [hit_loop, h0] using ih _ (download_audio_mono _ _ _ _ h)

/-- Re-running the hit loop over a filesystem that already holds every
audio file the first pass ended with performs zero fetches and leaves the
filesystem unchanged. -/
theorem hit_loop_second (dest html : String) (s2 : SentMap) (l : SentMap)
    (fs fs' : FSState)
    (h : ∀ x, x ∈ (hit_loop dest html s2 l fs).fs.audio → x ∈ fs'.audio) :
    (hit_loop dest html s2 l fs').audioFetches = 0 ∧
      (hit_loop dest html s2 l fs').fs = fs' := by
  induction l generalizing fs fs' with
  | nil => simp [hit_loop]
  | cons p rest ih =>
    obtain ⟨sound_id, src_sentence⟩ := p
    cases h0 : dictGet s2 sound_id with
    | none => simp [hit_loop, h0]
    | some dest_sentence =>
      have hmem : audio_filename dest sound_id ∈ fs'.audio := by
        apply h
        simp only [hit_loop, h0]
        exact hit_loop_audio_mono _ _ _ _ _ _ (download_audio_mem _ _ _)
      have hdl : download_audio fs' dest sound_id =
          ⟨fs', audio_filename dest sound_id, false⟩ :=
        download_audio_of_mem _ _ _ hmem
      have h' : ∀ x, x ∈ (hit_loop dest html s2 rest
          (download_audio fs dest sound_id).fs).fs.audio → x ∈ fs'.audio := by
        intro x hx
        apply h
        simpa [hit_loop, h0] using hx
      have := ih (download_audio fs dest sound_id).fs fs' h'
      simp [hit_loop, h0, hdl, this.1, this.2]

/-! ### Row-loop lemmas -/

theorem process_rows_sentences (dest html : String) (rows : List Row)
    (s1 s2 : SentMap) (fs : FSState) :
    (process_rows dest html rows s1 s2 fs).fs.sentences = fs.sentences := by
  induction rows generalizing s1 s2 fs with
  | nil => simp [process_rows]
  | cons row rows ih =>
    cases h : parse_row row with
    | fail => simp [process_rows, h]
    | skip => simp [process_rows, h, ih]
    | ok sound_id src_sentence dest_sentence =>
      simp [process_rows, h, ih, download_audio_sentences]

theorem process_rows_audio_mono (dest html : String) (rows : List Row)
    (s1 s2 : SentMap) (fs : FSState) (x : String) (hx : x ∈ fs.audio) :
    x ∈ (process_rows dest html rows s1 s2 fs).fs.audio := by
  induction rows generalizing s1 s2 fs with
  | nil => simpa [process_rows] using hx
  | cons row rows ih =>
    cases h : parse_row row with
    | fail => simpa [process_rows, h] using hx
    | skip => simpa [process_rows, h] using ih _ _ _ hx
    | ok sound_id src_sentence dest_sentence =>
      simpa [process_rows, h] using ih _ _ _ (download_audio_mono _ _ _ _ hx)

/-- Whether a key is present in a Python dict depends only on its key
sequence. -/
theorem dictGet_isSome_of_keys {α β : Type} (d1 : List (String × α))
    (d2 : List (String × β)) (k : String)
    (h : d1.map Prod.fst = d2.map Prod.fst) :
    (dictGet d1 k).isSome = (dictGet d2 k).isSome := by
  induction d1 generalizing d2 with
  | nil =>
    cases d2 with
    | nil => rfl
    | cons p tl => simp at h
  | cons p tl ih =>
    cases d2 with
    | nil => simp at h
    | cons q tl2 =>
      obtain ⟨k1, v⟩ := p
      obtain ⟨k2, w⟩ := q
      simp only [List.map_cons, List.cons.injEq] at h
      obtain ⟨hk, htl⟩ := h
      subst hk
      by_cases hkk : k1 = k <;> simp [dictGet, hkk, ih _ htl]

/-- The two in-memory maps are extended in lockstep, so they always share
the same key sequence. -/
theorem process_rows_keys (dest html : String) (rows : List Row)
    (s1 s2 : SentMap) (fs : FSState) (m1 m2 : SentMap)
    (hkeys : s1.map Prod.fst = s2.map Prod.fst)
    (h : (process_rows dest html rows s1 s2 fs).maps = some (m1, m2)) :
    m1.map Prod.fst = m2.map Prod.fst := by
  induction rows generalizing s1 s2 fs with
  | nil =>
    simp only [process_rows] at h
    obtain ⟨h1, h2⟩ := Option.some.injEq _ _ ▸ h
    cases h
    exact hkeys
  | cons row rows ih =>
    cases h0 : parse_row row with
    | fail => simp [process_rows, h0] at h
    | skip =>
      simp only [process_rows, h0] at h
      exact ih _ _ _ hkeys h
    | ok sound_id src_sentence dest_sentence =>
      simp only [process_rows, h0] at h
      refine ih _ _ _ ?_ h
      rw [dictSet_keys, dictSet_keys, hkeys, dictGet_isSome_of_keys s1 s2 sound_id hkeys]

/-! ### Run-level lemmas -/

theorem gcls_fileOf (fs : FSState) (src dest k lang : String) :
    fileOf (get_cached_lesson_sentences fs src dest k).fs.sentences lang =
      fileOf fs.sentences lang := by
  rw [gcls_fs, fileOf_create, fileOf_create]

/-- Audio files are never deleted during a run. -/
theorem run_audio_mono (remote : Remote) (src dest : String) (endL : Nat) :
    ∀ (fuel i attempt : Nat) (st : EngineSt) (x : String), x ∈ st.fs.audio →
      x ∈ (outSt (run_loop remote src dest endL fuel i attempt st)).fs.audio := by
  intro fuel
  induction fuel with
  | zero =>
    intro i attempt st x hx
    by_cases h : i > endL <;> simp [run_loop, h, outSt, hx]
  | succ fuel ih =>
    intro i attempt st x hx
    by_cases h : i > endL
    · simp [run_loop, h, outSt, hx]
    · rw [run_loop]
      rw [if_neg h]
      dsimp only
      split
      · split
        · apply ih
          simp only [stepHit]
          exact hit_loop_audio_mono _ _ _ _ _ _ (by rw [gcls_audio]; exact hx)
        · simp only [outSt, stepHit]
          exact hit_loop_audio_mono _ _ _ _ _ _ (by rw [gcls_audio]; exact hx)
      · split
        · apply ih
          simpa [gcls_audio] using hx
        · split
          · simp only [outSt, stepRows]
            exact process_rows_audio_mono _ _ _ _ _ _ _ (by rw [gcls_audio]; exact hx)
          · apply ih
            simp only [stepRows, cls_audio]
            exact process_rows_audio_mono _ _ _ _ _ _ _ (by rw [gcls_audio]; exact hx)

/-- A lesson key that exists in a persisted cache file still exists after
any further run (writes only add or replace keys, never remove them). -/
theorem run_isSomeAt_mono (remote : Remote) (src dest : String) (endL : Nat) :
    ∀ (fuel i attempt : Nat) (st : EngineSt) (lang k : String),
      (dictGet (fileOf st.fs.sentences lang) k).isSome = true →
      (dictGet (fileOf
        (outSt (run_loop remote src dest endL fuel i attempt st)).fs.sentences lang)
        k).isSome = true := by
  intro fuel
  induction fuel with
  | zero =>
    intro i attempt st lang k hx
    by_cases h : i > endL <;> simp [run_loop, h, outSt, hx]
  | succ fuel ih =>
    intro i attempt st lang k hx
    by_cases h : i > endL
    · simp [run_loop, h, outSt, hx]
    · rw [run_loop]
      rw [if_neg h]
      dsimp only
      split
      · split
        · apply ih
          simp only [stepHit]
          rw [hit_loop_sentences, gcls_fileOf]
          exact hx
        · simp only [outSt, stepHit]
          rw [hit_loop_sentences, gcls_fileOf]
          exact hx
      · split
        · apply ih
          simpa [gcls_fileOf] using hx
        · split
          · simp only [outSt, stepRows]
            rw [process_rows_sentences, gcls_fileOf]
            exact hx
          · apply ih
            simp only [stepRows]
            apply isSomeAt_cls
            apply isSomeAt_cls
            rw [process_rows_sentences, gcls_fileOf]
            exact hx

/-- The entry at the lesson key after the lesson's double write: the
`dest` map, and (unless the two languages coincide) the `src` map. -/
theorem entryOf_write2_self (fs : FSState) (src dest ks : String) (m1 m2 : SentMap) :
    entryOf (cache_lesson_sentences (cache_lesson_sentences fs src ks m1)
        dest ks m2).sentences dest ks = m2 ∧
    entryOf (cache_lesson_sentences (cache_lesson_sentences fs src ks m1)
        dest ks m2).sentences src ks = (if src = dest then m2 else m1) := by
  constructor
  · rw [entryOf_cls]
    simp
  · rw [entryOf_cls]
    by_cases h : src = dest
    · simp [h]
    · simp [h, entryOf_cls]

/-- The double write touches no other lesson key of either store. -/
theorem entryOf_write2_other (fs : FSState) (src dest ks : String) (m1 m2 : SentMap)
    (lang k : String) (h : k ≠ ks) :
    entryOf (cache_lesson_sentences (cache_lesson_sentences fs src ks m1)
        dest ks m2).sentences lang k = entryOf fs.sentences lang k := by
  rw [entryOf_cls]
  by_cases h1 : lang = dest <;> by_cases h2 : lang = src <;>
    simp [h1, h2, h, entryOf_cls]

/-- A run started at a state where the src/dest entries at `key` are
empty-together stays empty-together at `key`: every lesson write persists
both maps with identical key sequences. -/
theorem run_iff_preserve (remote : Remote) (src dest : String) (endL : Nat) :
    ∀ (fuel i attempt : Nat) (st : EngineSt) (key : String),
      (entryOf st.fs.sentences src key = [] ↔ entryOf st.fs.sentences dest key = []) →
      (entryOf (outSt (run_loop remote src dest endL fuel i attempt st)).fs.sentences
          src key = [] ↔
        entryOf (outSt (run_loop remote src dest endL fuel i attempt st)).fs.sentences
          dest key = []) := by
  intro fuel
  induction fuel with
  | zero =>
    intro i attempt st key hx
    by_cases h : i > endL <;> simp [run_loop, h, outSt, hx]
  | succ fuel ih =>
    intro i attempt st key hx
    by_cases h : i > endL
    · simp [run_loop, h, outSt, hx]
    · rw [run_loop]
      rw [if_neg h]
      dsimp only
      split
      · split
        · apply ih
          simp only [stepHit]
          rw [hit_loop_sentences]
          simpa [gcls_fs, entryOf_create] using hx
        · simp only [outSt, stepHit]
          rw [hit_loop_sentences]
          simpa [gcls_fs, entryOf_create] using hx
      · split
        · apply ih
          simpa [gcls_fs, entryOf_create] using hx
        · split
          · simp only [outSt, stepRows]
            rw [process_rows_sentences]
            simpa [gcls_fs, entryOf_create] using hx
          · rename_i xo m1 m2 hmaps
            apply ih
            simp only [stepRows]
            by_cases hk : key = toString i
            · subst hk
              rw [(entryOf_write2_self _ _ _ _ m1 m2).1,
                (entryOf_write2_self _ _ _ _ m1 m2).2]
              have hkeys : m1.map Prod.fst = m2.map Prod.fst :=
                process_rows_keys _ _ _ _ _ _ _ _ rfl hmaps
              by_cases hsd : src = dest
              · simp [hsd]
              · rw [if_neg hsd]
                constructor
                · intro h1
                  subst h1
                  simpa using hkeys.symm
                · intro h2
                  subst h2
                  simpa using hkeys
            · rw [entryOf_write2_other _ _ _ _ _ _ _ _ hk,
                entryOf_write2_other _ _ _ _ _ _ _ _ hk]
              simp only [process_rows_sentences, gcls_fs, entryOf_create]
              exact hx

/-- After a lesson's double write, the two entries at the lesson key are
empty exactly together. -/
theorem write2_iff (fs : FSState) (src dest ks : String) (m1 m2 : SentMap)
    (hkeys : m1.map Prod.fst = m2.map Prod.fst) :
    (entryOf (cache_lesson_sentences (cache_lesson_sentences fs src ks m1)
        dest ks m2).sentences src ks = [] ↔
      entryOf (cache_lesson_sentences (cache_lesson_sentences fs src ks m1)
        dest ks m2).sentences dest ks = []) := by
  rw [(entryOf_write2_self _ _ _ _ m1 m2).1, (entryOf_write2_self _ _ _ _ m1 m2).2]
  by_cases hsd : src = dest
  · simp [hsd]
  · rw [if_neg hsd]
    constructor
    · intro h1
      subst h1
      simpa using hkeys.symm
    · intro h2
      subst h2
      simpa using hkeys

/-- Transfer the empty-together property through a completed continuation. -/
theorem run_iff_done (remote : Remote) (src dest : String) (endL : Nat)
    (fuel i attempt : Nat) (st st' : EngineSt) (key : String)
    (hrun : run_loop remote src dest endL fuel i attempt st = .done st')
    (hiff : entryOf st.fs.sentences src key = [] ↔
      entryOf st.fs.sentences dest key = []) :
    (entryOf st'.fs.sentences src key = [] ↔
      entryOf st'.fs.sentences dest key = []) := by
  have hpre := run_iff_preserve remote src dest endL fuel i attempt st key hiff
  rw [hrun] at hpre
  simpa [outSt] using hpre

/-- After a completed run, the persisted src and dest entries of every
lesson in the processed range are empty exactly together. -/
theorem run_done_iff (remote : Remote) (src dest : String) (endL : Nat) :
    ∀ (fuel i attempt : Nat) (st : EngineSt) (st' : EngineSt),
      run_loop remote src dest endL fuel i attempt st = .done st' →
      ∀ j, i ≤ j → j ≤ endL →
        (entryOf st'.fs.sentences src (toString j) = [] ↔
          entryOf st'.fs.sentences dest (toString j) = []) := by
  intro fuel
  induction fuel with
  | zero =>
    intro i attempt st st' hrun j hj1 hj2
    by_cases h : i > endL
    · simp only [run_loop, if_pos h] at hrun
      omega
    · simp [run_loop, if_neg h] at hrun
  | succ fuel ih =>
    intro i attempt st st' hrun j hj1 hj2
    by_cases h : i > endL
    · simp only [run_loop, if_pos h] at hrun
      omega
    · rw [run_loop] at hrun
      rw [if_neg h] at hrun
      dsimp only at hrun
      split at hrun
      · split at hrun
        · rcases Nat.eq_or_lt_of_le hj1 with rfl | hlt
          · rename_i hcond hok
            have hne : entryOf st.fs.sentences src (toString i) ≠ [] ∧
                entryOf st.fs.sentences dest (toString i) ≠ [] := by
              rw [Bool.and_eq_true, Bool.not_eq_true', Bool.not_eq_true'] at hcond
              obtain ⟨h1, h2⟩ := hcond
              rw [gcls_s1] at h1
              rw [gcls_s2] at h2
              constructor
              · intro hc; rw [hc] at h1; simp at h1
              · intro hc; rw [hc] at h2; simp at h2
            apply run_iff_done _ _ _ _ _ _ _ _ _ _ hrun
            simp only [stepHit, hit_loop_sentences, gcls_fs, entryOf_create]
            exact iff_of_false hne.1 hne.2
          · exact ih _ _ _ _ hrun j hlt hj2
        · simp at hrun
      · split at hrun
        · exact ih _ _ _ _ hrun j hj1 hj2
        · split at hrun
          · simp at hrun
          · rename_i xo m1 m2 hmaps
            rcases Nat.eq_or_lt_of_le hj1 with rfl | hlt
            · have hkeys : m1.map Prod.fst = m2.map Prod.fst :=
                process_rows_keys _ _ _ _ _ _ _ _ rfl hmaps
              apply run_iff_done _ _ _ _ _ _ _ _ _ _ hrun
              simp only [stepRows]
              exact write2_iff _ src dest (toString i) m1 m2 hkeys
            · exact ih _ _ _ _ hrun j hlt hj2

/-- A non-empty persisted entry implies its cache file exists. -/
theorem entryOf_ne_isSome (S : List (String × CacheFile)) (lang k : String)
    (h : entryOf S lang k ≠ []) : (dictGet S lang).isSome = true := by
  cases h0 : dictGet S lang with
  | some f => rfl
  | none =>
    exfalso
    apply h
    unfold entryOf fileOf
    rw [h0]
    rfl

theorem gcls_fs_of_present (fs : FSState) (src dest k : String)
    (h1 : (dictGet fs.sentences src).isSome = true)
    (h2 : (dictGet fs.sentences dest).isSome = true) :
    (get_cached_lesson_sentences fs src dest k).fs = fs := by
  rw [gcls_fs, create_of_isSome _ _ h1, create_of_isSome _ _ h2]

/-- One cache-hit iteration of the engine, as a function of the run state:
the state after the emission loop and whether the loop completed. -/
def hitStep (src dest : String) (i : Nat) (st : EngineSt) : EngineSt × Bool :=
  let html := lesson_link_html (lesson_link src dest i)
  let s1 := entryOf st.fs.sentences src (toString i)
  let s2 := entryOf st.fs.sentences dest (toString i)
  let hh := hit_loop dest html s2 s1 st.fs
  ({ st with
      fs := hh.fs
      notes := st.notes ++ hh.notes
      media := st.media ++ hh.media
      log := st.log ++ ["\rFetching lesson " ++ toString i ++ "..."]
      audioFetches := st.audioFetches + hh.audioFetches }, hh.ok)

/-- When both cache entries for the current lesson are non-empty, the
iteration is exactly the cache-hit step: no remote lesson fetch happens. -/
theorem run_loop_hit_eq (remote : Remote) (src dest : String) (endL : Nat)
    (fuel i attempt : Nat) (st : EngineSt)
    (hle : ¬i > endL)
    (h1 : entryOf st.fs.sentences src (toString i) ≠ [])
    (h2 : entryOf st.fs.sentences dest (toString i) ≠ []) :
    run_loop remote src dest endL (fuel + 1) i attempt st =
      (if (hitStep src dest i st).2 then
        run_loop remote src dest endL fuel (i + 1) 0 (hitStep src dest i st).1
      else .aborted i (hitStep src dest i st).1) := by
  have hfs : (get_cached_lesson_sentences st.fs src dest (toString i)).fs = st.fs :=
    gcls_fs_of_present _ _ _ _ (entryOf_ne_isSome _ _ _ h1) (entryOf_ne_isSome _ _ _ h2)
  have hcond : (!(get_cached_lesson_sentences st.fs src dest (toString i)).s1.isEmpty &&
      !(get_cached_lesson_sentences st.fs src dest (toString i)).s2.isEmpty) = true := by
    rw [gcls_s1, gcls_s2]
    simp only [Bool.and_eq_true, Bool.not_eq_true', List.isEmpty_eq_false]
    exact ⟨h1, h2⟩
  rw [run_loop]
  rw [if_neg hle]
  dsimp only
  rw [if_pos hcond]
  simp only [hitStep, stepHit, gcls_s1, gcls_s2, hfs]

/-- When the current lesson is a cache miss and the fetch hits a connection
reset, the engine retries the same lesson without advancing and without
touching the persisted entries. -/
theorem run_loop_miss_transient_eq (remote : Remote) (src dest : String) (endL : Nat)
    (fuel i attempt : Nat) (st : EngineSt)
    (hle : ¬i > endL)
    (hmiss : entryOf st.fs.sentences src (toString i) = [] ∨
      entryOf st.fs.sentences dest (toString i) = [])
    (hrem : remote (i + 161) attempt = .transient) :
    run_loop remote src dest endL (fuel + 1) i attempt st =
      run_loop remote src dest endL fuel i (attempt + 1)
        { st with
          fs := (get_cached_lesson_sentences st.fs src dest (toString i)).fs
          log := st.log ++ ["\rFetching lesson " ++ toString i ++ "..."]
          lessonFetches := st.lessonFetches + 1 } := by
  have hcond : (!(get_cached_lesson_sentences st.fs src dest (toString i)).s1.isEmpty &&
      !(get_cached_lesson_sentences st.fs src dest (toString i)).s2.isEmpty) = false := by
    rw [gcls_s1, gcls_s2]
    rcases hmiss with hm | hm <;> simp [hm]
  rw [run_loop]
  rw [if_neg hle]
  dsimp only
  rw [if_neg (by simp [hcond])]
  rw [hrem]

/-- When the current lesson is a cache miss and the fetch returns a page,
the engine processes the rows; on a clean parse it persists both maps under
the lesson key and advances, on a parse failure it aborts immediately. -/
theorem run_loop_miss_page_eq (remote : Remote) (src dest : String) (endL : Nat)
    (fuel i attempt : Nat) (st : EngineSt) (rows : List Row)
    (hle : ¬i > endL)
    (hmiss : entryOf st.fs.sentences src (toString i) = [] ∨
      entryOf st.fs.sentences dest (toString i) = [])
    (hrem : remote (i + 161) attempt = .page rows) :
    run_loop remote src dest endL (fuel + 1) i attempt st =
      (let fsr := (get_cached_lesson_sentences st.fs src dest (toString i)).fs
       let st3 : EngineSt :=
        { st with
          fs := fsr
          log := st.log ++ ["\rFetching lesson " ++ toString i ++ "..."]
          lessonFetches := st.lessonFetches + 1 }
       let r := process_rows dest (lesson_link_html (lesson_link src dest i)) rows [] [] fsr
       match r.maps with
       | none => .aborted i (stepRows st3 r)
       | some (m1, m2) =>
         run_loop remote src dest endL fuel (i + 1) 0
           { stepRows st3 r with
             fs := cache_lesson_sentences (cache_lesson_sentences r.fs src (toString i) m1)
               dest (toString i) m2 }) := by
  have hcond : (!(get_cached_lesson_sentences st.fs src dest (toString i)).s1.isEmpty &&
      !(get_cached_lesson_sentences st.fs src dest (toString i)).s2.isEmpty) = false := by
    rw [gcls_s1, gcls_s2]
    rcases hmiss with hm | hm <;> simp [hm]
  rw [run_loop]
  rw [if_neg hle]
  dsimp only
  rw [if_neg (by simp [hcond])]
  rw [hrem]

theorem hitStep_snd (src dest : String) (i : Nat) (st : EngineSt) :
    (hitStep src dest i st).2 =
      hitOk (entryOf st.fs.sentences dest (toString i))
        (entryOf st.fs.sentences src (toString i)) := by
  simp [hitStep, hit_loop_ok]

theorem hitStep_notes (src dest : String) (i : Nat) (st : EngineSt) :
    (hitStep src dest i st).1.notes = st.notes ++
      hitNotes dest (lesson_link_html (lesson_link src dest i))
        (entryOf st.fs.sentences dest (toString i))
        (entryOf st.fs.sentences src (toString i)) := by
  simp [hitStep, hit_loop_notes]

theorem hitStep_fs (src dest : String) (i : Nat) (st : EngineSt) :
    (hitStep src dest i st).1.fs =
      (hit_loop dest (lesson_link_html (lesson_link src dest i))
        (entryOf st.fs.sentences dest (toString i))
        (entryOf st.fs.sentences src (toString i)) st.fs).fs := by
  simp [hitStep]

theorem hitStep_sentences (src dest : String) (i : Nat) (st : EngineSt) :
    (hitStep src dest i st).1.fs.sentences = st.fs.sentences := by
  rw [hitStep_fs, hit_loop_sentences]

theorem hitStep_lessonFetches (src dest : String) (i : Nat) (st : EngineSt) :
    (hitStep src dest i st).1.lessonFetches = st.lessonFetches := by
  simp [hitStep]

theorem hitStep_audioFetches (src dest : String) (i : Nat) (st : EngineSt) :
    (hitStep src dest i st).1.audioFetches = st.audioFetches +
      (hit_loop dest (lesson_link_html (lesson_link src dest i))
        (entryOf st.fs.sentences dest (toString i))
        (entryOf st.fs.sentences src (toString i)) st.fs).audioFetches := by
  simp [hitStep]

/-- A cache-hit step over a filesystem that already holds all the audio the
first pass produced changes nothing and fetches nothing. -/
theorem hitStep_second (src dest : String) (i : Nat) (st1 st2 : EngineSt)
    (hsents : st2.fs.sentences = st1.fs.sentences)
    (haud : ∀ x, x ∈ (hitStep src dest i st1).1.fs.audio → x ∈ st2.fs.audio) :
    (hitStep src dest i st2).1.fs = st2.fs ∧
      (hitStep src dest i st2).1.audioFetches = st2.audioFetches := by
  rw [hitStep_fs, hitStep_audioFetches, hsents]
  rw [hitStep_fs] at haud
  have := hit_loop_second dest (lesson_link_html (lesson_link src dest i))
    (entryOf st1.fs.sentences dest (toString i))
    (entryOf st1.fs.sentences src (toString i)) st1.fs st2.fs haud
  exact ⟨this.2, by simp [this.1]⟩

/-- Two runs over the same all-hit range and the same persisted sentence
state produce the same sequence of new notes; the first run performs no
lesson fetches and does not touch the sentence stores, and the second run
(over a filesystem already holding all audio the first run ended with)
additionally fetches no audio and leaves the filesystem unchanged. -/
theorem run_twice (remote : Remote) (src dest : String) (endL : Nat) :
    ∀ (fuel i a1 a2 : Nat) (st1 st2 : EngineSt),
      (∀ j, i ≤ j → j ≤ endL → entryOf st1.fs.sentences src (toString j) ≠ [] ∧
        entryOf st1.fs.sentences dest (toString j) ≠ []) →
      st2.fs.sentences = st1.fs.sentences →
      (∀ x, x ∈ (outSt (run_loop remote src dest endL fuel i a1 st1)).fs.audio →
        x ∈ st2.fs.audio) →
      ∃ d,
        (outSt (run_loop remote src dest endL fuel i a1 st1)).notes = st1.notes ++ d ∧
        (outSt (run_loop remote src dest endL fuel i a2 st2)).notes = st2.notes ++ d ∧
        (outSt (run_loop remote src dest endL fuel i a1 st1)).fs.sentences =
          st1.fs.sentences ∧
        (outSt (run_loop remote src dest endL fuel i a1 st1)).lessonFetches =
          st1.lessonFetches ∧
        (outSt (run_loop remote src dest endL fuel i a2 st2)).fs.audio = st2.fs.audio ∧
        (outSt (run_loop remote src dest endL fuel i a2 st2)).fs.sentences =
          st2.fs.sentences ∧
        (outSt (run_loop remote src dest endL fuel i a2 st2)).audioFetches =
          st2.audioFetches ∧
        (outSt (run_loop remote src dest endL fuel i a2 st2)).lessonFetches =
          st2.lessonFetches := by
  intro fuel
  induction fuel with
  | zero =>
    intro i a1 a2 st1 st2 hall hsents haud
    by_cases h : i > endL <;> exact ⟨[], by simp [run_loop, h, outSt]⟩
  | succ fuel ih =>
    intro i a1 a2 st1 st2 hall hsents haud
    by_cases h : i > endL
    · exact ⟨[], by simp [run_loop, h, outSt]⟩
    · have hi := hall i (Nat.le_refl i) (by omega)
      have he1 := run_loop_hit_eq remote src dest endL fuel i a1 st1 h hi.1 hi.2
      have he2 := run_loop_hit_eq remote src dest endL fuel i a2 st2 h
        (by rw [hsents]; exact hi.1) (by rw [hsents]; exact hi.2)
      have hok2 : (hitStep src dest i st2).2 = (hitStep src dest i st1).2 := by
        rw [hitStep_snd, hitStep_snd, hsents]
      have haud1 : ∀ x, x ∈ (hitStep src dest i st1).1.fs.audio → x ∈ st2.fs.audio := by
        intro x hx
        apply haud
        rw [he1]
        cases hok : (hitStep src dest i st1).2 with
        | true =>
          rw [if_pos rfl]
          exact run_audio_mono remote src dest endL fuel (i + 1) 0 _ x hx
        | false =>
          rw [if_neg (by simp)]
          simpa [outSt] using hx
      have hsecond := hitStep_second src dest i st1 st2 hsents haud1
      have hnotes2 : (hitStep src dest i st2).1.notes = st2.notes ++
          hitNotes dest (lesson_link_html (lesson_link src dest i))
            (entryOf st1.fs.sentences dest (toString i))
            (entryOf st1.fs.sentences src (toString i)) := by
        rw [hitStep_notes, hsents]
      rw [he1, he2, hok2]
      cases hok : (hitStep src dest i st1).2 with
      | false =>
        rw [if_neg (by simp), if_neg (by simp)]
        refine ⟨hitNotes dest (lesson_link_html (lesson_link src dest i))
          (entryOf st1.fs.sentences dest (toString i))
          (entryOf st1.fs.sentences src (toString i)), ?_⟩
        simp only [outSt]
        refine ⟨hitStep_notes src dest i st1, hnotes2, hitStep_sentences src dest i st1,
          hitStep_lessonFetches src dest i st1, by rw [hsecond.1],
          by rw [hsecond.1], hsecond.2, hitStep_lessonFetches src dest i st2⟩
      | true =>
        rw [if_pos rfl, if_pos rfl]
        have hall' : ∀ j, i + 1 ≤ j → j ≤ endL →
            entryOf (hitStep src dest i st1).1.fs.sentences src (toString j) ≠ [] ∧
            entryOf (hitStep src dest i st1).1.fs.sentences dest (toString j) ≠ [] := by
          intro j hj1 hj2
          rw [hitStep_sentences]
          exact hall j (by omega) hj2
        have hsents' : (hitStep src dest i st2).1.fs.sentences =
            (hitStep src dest i st1).1.fs.sentences := by
          rw [hsecond.1, hitStep_sentences, hsents]
        have haud' : ∀ x, x ∈ (outSt (run_loop remote src dest endL fuel (i + 1) 0
            (hitStep src dest i st1).1)).fs.audio →
            x ∈ (hitStep src dest i st2).1.fs.audio := by
          intro x hx
          rw [hsecond.1]
          apply haud
          rw [he1, if_pos hok]
          exact hx
        obtain ⟨d, hd1, hd2, hd3, hd4, hd5, hd6, hd7, hd8⟩ :=
          ih (i + 1) 0 0 (hitStep src dest i st1).1 (hitStep src dest i st2).1
            hall' hsents' haud'
        refine ⟨hitNotes dest (lesson_link_html (lesson_link src dest i))
          (entryOf st1.fs.sentences dest (toString i))
          (entryOf st1.fs.sentences src (toString i)) ++ d, ?_, ?_, ?_, ?_, ?_, ?_, ?_, ?_⟩
        · rw [hd1, hitStep_notes, List.append_assoc]
        · rw [hd2, hnotes2, List.append_assoc]
        · rw [hd3, hitStep_sentences]
        · rw [hd4, hitStep_lessonFetches]
        · rw [hd5, hsecond.1]
        · rw [hd6, hsecond.1]
        · rw [hd7, hsecond.2]
        · rw [hd8, hitStep_lessonFetches]

/-- On an all-hit range a run never touches the sentence stores and never
fetches a lesson page. -/
theorem run_allhit_frame (remote : Remote) (src dest : String) (endL : Nat) :
    ∀ (fuel i attempt : Nat) (st : EngineSt),
      (∀ j, i ≤ j → j ≤ endL → entryOf st.fs.sentences src (toString j) ≠ [] ∧
        entryOf st.fs.sentences dest (toString j) ≠ []) →
      (outSt (run_loop remote src dest endL fuel i attempt st)).fs.sentences =
        st.fs.sentences ∧
      (outSt (run_loop remote src dest endL fuel i attempt st)).lessonFetches =
        st.lessonFetches := by
  intro fuel
  induction fuel with
  | zero =>
    intro i attempt st hall
    by_cases h : i > endL <;> simp [run_loop, h, outSt]
  | succ fuel ih =>
    intro i attempt st hall
    by_cases h : i > endL
    · simp [run_loop, h, outSt]
    · have hi := hall i (Nat.le_refl i) (by omega)
      rw [run_loop_hit_eq remote src dest endL fuel i attempt st h hi.1 hi.2]
      cases hok : (hitStep src dest i st).2 with
      | false =>
        rw [if_neg (by simp)]
        exact ⟨hitStep_sentences src dest i st, hitStep_lessonFetches src dest i st⟩
      | true =>
        rw [if_pos rfl]
        have hall' : ∀ j, i + 1 ≤ j → j ≤ endL →
            entryOf (hitStep src dest i st).1.fs.sentences src (toString j) ≠ [] ∧
            entryOf (hitStep src dest i st).1.fs.sentences dest (toString j) ≠ [] := by
          intro j hj1 hj2
          rw [hitStep_sentences]
          exact hall j (by omega) hj2
        have := ih (i + 1) 0 (hitStep src dest i st).1 hall'
        rw [this.1, this.2, hitStep_sentences, hitStep_lessonFetches]
        exact ⟨rfl, rfl⟩

theorem run_loop_done_of_gt (remote : Remote) (src dest : String) (endL : Nat)
    (fuel i attempt : Nat) (st : EngineSt) (h : i > endL) :
    run_loop remote src dest endL fuel i attempt st = .done st := by
  cases fuel <;> simp [run_loop, h]

theorem entryOf_ne_isSomeAt (S : List (String × CacheFile)) (lang k : String)
    (h : entryOf S lang k ≠ []) :
    (dictGet (fileOf S lang) k).isSome = true := by
  cases h0 : dictGet (fileOf S lang) k with
  | some m => rfl
  | none =>
    exfalso
    apply h
    unfold entryOf
    rw [h0]
    rfl

/-- A row whose first cell strips to the empty string is skipped. -/
theorem parse_row_skip (row : Row) (c0 : Cell) (h0 : row.get? 0 = some c0)
    (h1 : pyStrip c0.text = "") : parse_row row = .skip := by
  unfold parse_row
  rw [h0]
  simp [h1]

/-- When every source-side sound id is a key of the destination map, the
hit loop completes. -/
theorem hitOk_of_subset (s2 : SentMap) (l : SentMap)
    (h : ∀ p, p ∈ l → (dictGet s2 p.1).isSome = true) : hitOk s2 l = true := by
  induction l with
  | nil => rfl
  | cons p rest ih =>
    obtain ⟨sound_id, s⟩ := p
    have hp := h _ (List.mem_cons_self _ _)
    cases h0 : dictGet s2 sound_id with
    | none => rw [h0] at hp; simp at hp
    | some d =>
      simp only [hitOk, h0]
      exact ih fun q hq => h q (List.mem_cons_of_mem _ hq)

/-- Repeated `download_audio` calls for the same (language, sound id) pair,
counting how many of them performed a network fetch. -/
def ensure_seq (lang sound_id : String) : Nat → FSState → FSState × Nat
  | 0, fs => (fs, 0)
  | n + 1, fs =>
    let d := download_audio fs lang sound_id
    let r := ensure_seq lang sound_id n d.fs
    (r.1, (if d.fetched then 1 else 0) + r.2)

theorem ensure_seq_zero_of_mem (lang sound_id : String) (n : Nat) (fs : FSState)
    (h : audio_filename lang sound_id ∈ fs.audio) :
    (ensure_seq lang sound_id n fs).2 = 0 := by
  induction n generalizing fs with
  | zero => rfl
  | succ n ih =>
    simp only [ensure_seq, download_audio_of_mem fs lang sound_id h]
    simpa using ih fs h

theorem ensure_seq_le_one (lang sound_id : String) (n : Nat) (fs : FSState) :
    (ensure_seq lang sound_id n fs).2 ≤ 1 := by
  cases n with
  | zero => simp [ensure_seq]
  | succ n =>
    simp only [ensure_seq]
    by_cases h : audio_filename lang sound_id ∈ fs.audio
    · rw [download_audio_of_mem fs lang sound_id h]
      simp [ensure_seq_zero_of_mem lang sound_id n fs h]
    · have hmem := download_audio_mem fs lang sound_id
      rw [ensure_seq_zero_of_mem lang sound_id n _ hmem]
      split <;> simp

/-- Transfer persisted-key existence through an arbitrary run outcome. -/
theorem run_isSomeAt_out (remote : Remote) (src dest : String) (endL : Nat)
    (fuel i attempt : Nat) (st : EngineSt) (o : RunOutcome)
    (hrun : run_loop remote src dest endL fuel i attempt st = o) (lang k : String)
    (hx : (dictGet (fileOf st.fs.sentences lang) k).isSome = true) :
    (dictGet (fileOf (outSt o).fs.sentences lang) k).isSome = true := by
  subst hrun
  exact run_isSomeAt_mono remote src dest endL fuel i attempt st lang k hx

/-- When a run aborts at lesson `j`, every earlier lesson of the range has
a persisted entry in both language stores. -/
theorem run_aborted_cached (remote : Remote) (src dest : String) (endL : Nat) :
    ∀ (fuel i attempt : Nat) (st : EngineSt) (j : Nat) (st' : EngineSt),
      run_loop remote src dest endL fuel i attempt st = .aborted j st' →
      ∀ m, i ≤ m → m < j →
        (dictGet (fileOf st'.fs.sentences src) (toString m)).isSome = true ∧
        (dictGet (fileOf st'.fs.sentences dest) (toString m)).isSome = true := by
  intro fuel
  induction fuel with
  | zero =>
    intro i attempt st j st' hrun m hm1 hm2
    by_cases h : i > endL <;> simp [run_loop, h] at hrun
  | succ fuel ih =>
    intro i attempt st j st' hrun m hm1 hm2
    by_cases h : i > endL
    · simp [run_loop, h] at hrun
    · rw [run_loop] at hrun
      rw [if_neg h] at hrun
      dsimp only at hrun
      split at hrun
      · split at hrun
        · rcases Nat.eq_or_lt_of_le hm1 with rfl | hlt
          · rename_i hcond hok
            rw [Bool.and_eq_true, Bool.not_eq_true', Bool.not_eq_true'] at hcond
            rw [gcls_s1, gcls_s2] at hcond
            obtain ⟨h1, h2⟩ := hcond
            have h1' : entryOf st.fs.sentences src (toString i) ≠ [] := by
              intro hc; rw [hc] at h1; simp at h1
            have h2' : entryOf st.fs.sentences dest (toString i) ≠ [] := by
              intro hc; rw [hc] at h2; simp at h2
            constructor
            · apply run_isSomeAt_out _ _ _ _ _ _ _ _ _ hrun src (toString i)
              simp only [stepHit, hit_loop_sentences, gcls_fileOf]
              exact entryOf_ne_isSomeAt _ _ _ h1'
            · apply run_isSomeAt_out _ _ _ _ _ _ _ _ _ hrun dest (toString i)
              simp only [stepHit, hit_loop_sentences, gcls_fileOf]
              exact entryOf_ne_isSomeAt _ _ _ h2' 
          · exact ih _ _ _ _ _ hrun m hlt hm2
        · injection hrun with hj hst
          omega
      · split at hrun
        · exact ih _ _ _ _ _ hrun m hm1 hm2
        · split at hrun
          · injection hrun with hj hst
            omega
          · rename_i xo m1 m2 hmaps
            rcases Nat.eq_or_lt_of_le hm1 with rfl | hlt
            · constructor
              · apply run_isSomeAt_out _ _ _ _ _ _ _ _ _ hrun src (toString i)
                simp only [stepRows]
                exact isSomeAt_cls _ _ _ _ _ _ (isSomeAt_cls_self _ _ _ _)
              · apply run_isSomeAt_out _ _ _ _ _ _ _ _ _ hrun dest (toString i)
                simp only [stepRows]
                exact isSomeAt_cls_self _ _ _ _
            · exact ih _ _ _ _ _ hrun m hlt hm2

/-- The filesystem reached after the cache read is read-stable. -/
theorem gcls_fs_idem (fs : FSState) (src dest k k' : String) :
    (get_cached_lesson_sentences (get_cached_lesson_sentences fs src dest k).fs
      src dest k').fs = (get_cached_lesson_sentences fs src dest k).fs :=
  gcls_idem fs src dest k k'

/-- Shift lemma for the retry loop over a single-lesson range: a run whose
first remaining attempt sees what the other run sees one attempt later
produces the same notes, media, audio and persisted entries; only the
lesson-fetch counters differ by the offset already accumulated. -/
theorem run_retry_shift (r1 r2 : Remote) (src dest : String) (i : Nat) :
    ∀ (fuel a : Nat) (st1 st2 : EngineSt),
      (∀ b, r1 (i + 161) (b + 1) = r2 (i + 161) b) →
      st1.fs = (get_cached_lesson_sentences st2.fs src dest (toString i)).fs →
      st1.notes = st2.notes →
      st1.media = st2.media →
      st1.audioFetches = st2.audioFetches →
      (entryOf st2.fs.sentences src (toString i) = [] ∨
        entryOf st2.fs.sentences dest (toString i) = []) →
      (∀ lang k, entryOf (outSt (run_loop r1 src dest i fuel i (a + 1) st1)).fs.sentences
          lang k =
        entryOf (outSt (run_loop r2 src dest i fuel i a st2)).fs.sentences lang k) ∧
      (outSt (run_loop r1 src dest i fuel i (a + 1) st1)).fs.audio =
        (outSt (run_loop r2 src dest i fuel i a st2)).fs.audio ∧
      (outSt (run_loop r1 src dest i fuel i (a + 1) st1)).notes =
        (outSt (run_loop r2 src dest i fuel i a st2)).notes ∧
      (outSt (run_loop r1 src dest i fuel i (a + 1) st1)).media =
        (outSt (run_loop r2 src dest i fuel i a st2)).media ∧
      (outSt (run_loop r1 src dest i fuel i (a + 1) st1)).audioFetches =
        (outSt (run_loop r2 src dest i fuel i a st2)).audioFetches ∧
      (outSt (run_loop r1 src dest i fuel i (a + 1) st1)).lessonFetches + st2.lessonFetches =
        (outSt (run_loop r2 src dest i fuel i a st2)).lessonFetches + st1.lessonFetches := by
  intro fuel
  induction fuel with
  | zero =>
    intro a st1 st2 hshift hfs hnotes hmedia haf hmiss
    have h : ¬i > i := by omega
    simp only [run_loop, if_neg h, outSt]
    refine ⟨?_, ?_, hnotes, hmedia, haf, by omega⟩
    · intro lang k
      rw [hfs, gcls_entry]
    · rw [hfs, gcls_audio]
  | succ fuel ih =>
    intro a st1 st2 hshift hfs hnotes hmedia haf hmiss
    have h : ¬i > i := by omega
    have hmiss1 : entryOf st1.fs.sentences src (toString i) = [] ∨
        entryOf st1.fs.sentences dest (toString i) = [] := by
      rw [hfs]
      rcases hmiss with hm | hm
      · exact Or.inl (by rw [gcls_entry]; exact hm)
      · exact Or.inr (by rw [gcls_entry]; exact hm)
    cases hrem : r2 (i + 161) a with
    | transient =>
      have hrem1 : r1 (i + 161) (a + 1) = .transient := by rw [hshift a, hrem]
      rw [run_loop_miss_transient_eq r1 src dest i fuel i (a + 1) st1 h hmiss1 hrem1]
      rw [run_loop_miss_transient_eq r2 src dest i fuel i a st2 h hmiss hrem]
      have := ih (a + 1)
        { st1 with
          fs := (get_cached_lesson_sentences st1.fs src dest (toString i)).fs
          log := st1.log ++ ["\rFetching lesson " ++ toString i ++ "..."]
          lessonFetches := st1.lessonFetches + 1 }
        { st2 with
          fs := (get_cached_lesson_sentences st2.fs src dest (toString i)).fs
          log := st2.log ++ ["\rFetching lesson " ++ toString i ++ "..."]
          lessonFetches := st2.lessonFetches + 1 }
        hshift (by simp only [hfs, gcls_fs_idem]) hnotes hmedia haf
        (by rw [gcls_entry, gcls_entry]; exact hmiss)
      obtain ⟨he, ha, hn, hm, hfe, hc⟩ := this
      refine ⟨he, ha, hn, hm, hfe, by simp only at hc; omega⟩
    | page rows =>
      have hrem1 : r1 (i + 161) (a + 1) = .page rows := by rw [hshift a, hrem]
      rw [run_loop_miss_page_eq r1 src dest i fuel i (a + 1) st1 rows h hmiss1 hrem1]
      rw [run_loop_miss_page_eq r2 src dest i fuel i a st2 rows h hmiss hrem]
      dsimp only
      rw [hfs, gcls_fs_idem]
      cases hmaps : (process_rows dest (lesson_link_html (lesson_link src dest i)) rows
          [] [] (get_cached_lesson_sentences st2.fs src dest (toString i)).fs).maps with
      | none =>
        dsimp only
        refine ⟨fun lang k => by simp [outSt, stepRows],
          by simp [outSt, stepRows],
          by simp [outSt, stepRows, hnotes],
          by simp [outSt, stepRows, hmedia],
          by simp [outSt, stepRows, haf],
          ?_⟩
        simp only [outSt, stepRows]
        omega
      | some p =>
        obtain ⟨m1, m2⟩ := p
        dsimp only
        rw [run_loop_done_of_gt r1 src dest i fuel (i + 1) 0 _ (by omega)]
        rw [run_loop_done_of_gt r2 src dest i fuel (i + 1) 0 _ (by omega)]
        refine ⟨fun lang k => by simp [outSt, stepRows],
          by simp [outSt, stepRows],
          by simp [outSt, stepRows, hnotes],
          by simp [outSt, stepRows, hmedia],
          by simp [outSt, stepRows, haf],
          ?_⟩
        simp only [outSt, stepRows]
        omega

/-- A single-lesson run consults the remote only at the lesson-number
component `i + 161`: two remotes agreeing there are indistinguishable. -/
theorem run_single_agree (r1 r2 : Remote) (src dest : String) (i : Nat) :
    ∀ (fuel a : Nat) (st : EngineSt),
      (∀ b, r1 (i + 161) b = r2 (i + 161) b) →
      run_loop r1 src dest i fuel i a st = run_loop r2 src dest i fuel i a st := by
  intro fuel
  induction fuel with
  | zero => intro a st hagree; rfl
  | succ fuel ih =>
    intro a st hagree
    have h : ¬i > i := by omega
    by_cases hm : entryOf st.fs.sentences src (toString i) = [] ∨
        entryOf st.fs.sentences dest (toString i) = []
    · cases hrem : r1 (i + 161) a with
      | transient =>
        have hrem2 : r2 (i + 161) a = .transient := by rw [← hagree a]; exact hrem
        rw [run_loop_miss_transient_eq r1 src dest i fuel i a st h hm hrem]
        rw [run_loop_miss_transient_eq r2 src dest i fuel i a st h hm hrem2]
        exact ih (a + 1) _ hagree
      | page rows =>
        have hrem2 : r2 (i + 161) a = .page rows := by rw [← hagree a]; exact hrem
        rw [run_loop_miss_page_eq r1 src dest i fuel i a st rows h hm hrem]
        rw [run_loop_miss_page_eq r2 src dest i fuel i a st rows h hm hrem2]
        dsimp only
        cases hmaps : (process_rows dest (lesson_link_html (lesson_link src dest i)) rows
            [] [] (get_cached_lesson_sentences st.fs src dest (toString i)).fs).maps with
        | none => rfl
        | some p =>
          obtain ⟨m1, m2⟩ := p
          dsimp only
          rw [run_loop_done_of_gt r1 src dest i fuel (i + 1) 0 _ (by omega)]
          rw [run_loop_done_of_gt r2 src dest i fuel (i + 1) 0 _ (by omega)]
    · push_neg at hm
      rw [run_loop_hit_eq r1 src dest i fuel i a st h hm.1 hm.2]
      rw [run_loop_hit_eq r2 src dest i fuel i a st h hm.1 hm.2]
      cases hok : (hitStep src dest i st).2 with
      | false => rfl
      | true =>
        rw [if_pos rfl, if_pos rfl]
        rw [run_loop_done_of_gt r1 src dest i fuel (i + 1) 0 _ (by omega)]
        rw [run_loop_done_of_gt r2 src dest i fuel (i + 1) 0 _ (by omega)]

theorem process_rows_skip_middle (dest html : String) (rows1 rows2 : List Row)
    (row : Row) (hskip : parse_row row = .skip) :
    ∀ (s1 s2 : SentMap) (fs : FSState),
      process_rows dest html (rows1 ++ row :: rows2) s1 s2 fs =
        process_rows dest html (rows1 ++ rows2) s1 s2 fs := by
  induction rows1 with
  | nil =>
    intro s1 s2 fs
    simp [process_rows, hskip]
  | cons r rows1 ih =>
    intro s1 s2 fs
    cases h : parse_row r with
    | fail => simp [process_rows, h]
    | skip => simp only [List.cons_append, process_rows, h]; exact ih s1 s2 fs
    | ok sound_id src_sentence dest_sentence =>
      simp only [List.cons_append, process_rows, h, List.append_eq]
      rw [ih]

/-! ### Claim theorems -/

/-- Claim C4: if the audio asset for (lang, soundId) already exists in the
store, `download_audio` returns its filename without fetching; after any
call the asset exists; and across any sequence of calls for the same pair
the underlying fetch fires at most once. -/
theorem C4_audio_dedup (fs : FSState) (lang sound_id : String) :
    (audio_filename lang sound_id ∈ fs.audio →
      download_audio fs lang sound_id = ⟨fs, audio_filename lang sound_id, false⟩) ∧
    audio_filename lang sound_id ∈ (download_audio fs lang sound_id).fs.audio ∧
    (∀ n, (ensure_seq lang sound_id n fs).2 ≤ 1) :=
  ⟨download_audio_of_mem fs lang sound_id, download_audio_mem fs lang sound_id,
    fun n => ensure_seq_le_one lang sound_id n fs⟩

/-- Witness for C4 at a concrete store that already holds the asset. -/
theorem C4_audio_dedup_witness :
    download_audio ⟨[], [audio_filename "de" "a1"]⟩ "de" "a1" =
      ⟨⟨[], [audio_filename "de" "a1"]⟩, audio_filename "de" "a1", false⟩ :=
  (C4_audio_dedup ⟨[], [audio_filename "de" "a1"]⟩ "de" "a1").1
    (List.mem_singleton.mpr rfl)

/-- Claim C5: a table row whose source-language cell strips to the empty
string is skipped entirely: removing it from the page changes nothing —
no note, no audio fetch, no map entries, no state change come from it. -/
theorem C5_row_filtering (dest html : String) (rows1 rows2 : List Row) (row : Row)
    (c0 : Cell) (h0 : row.get? 0 = some c0) (h1 : pyStrip c0.text = "")
    (s1 s2 : SentMap) (fs : FSState) :
    process_rows dest html (rows1 ++ row :: rows2) s1 s2 fs =
      process_rows dest html (rows1 ++ rows2) s1 s2 fs :=
  process_rows_skip_middle dest html rows1 rows2 row
    (parse_row_skip row c0 h0 h1) s1 s2 fs

/-- Witness for C5 on a one-row page whose source cell is whitespace. -/
theorem C5_row_filtering_witness :
    process_rows "de" "h" [[⟨"  ", [], none⟩]] [] [] ⟨[], []⟩ =
      process_rows "de" "h" [] [] [] ⟨[], []⟩ :=
  C5_row_filtering "de" "h" [] [] [⟨"  ", [], none⟩] ⟨"  ", [], none⟩ rfl
    (by decide) [] [] ⟨[], []⟩

/-- Claim C7: `cache_lesson_sentences` persists the map under the lesson
key, leaves every other lesson key of the same language unchanged, leaves
every other language's store unchanged, and does not touch the audio
store. -/
theorem C7_cache_put_frame (fs : FSState) (lang lesson_id : String) (m : SentMap) :
    dictGet (fileOf (cache_lesson_sentences fs lang lesson_id m).sentences lang)
      lesson_id = some m ∧
    (∀ k, k ≠ lesson_id →
      dictGet (fileOf (cache_lesson_sentences fs lang lesson_id m).sentences lang) k =
        dictGet (fileOf fs.sentences lang) k) ∧
    (∀ lang', lang' ≠ lang →
      dictGet (cache_lesson_sentences fs lang lesson_id m).sentences lang' =
        dictGet fs.sentences lang') ∧
    (cache_lesson_sentences fs lang lesson_id m).audio = fs.audio := by
  refine ⟨?_, ?_, ?_, cls_audio fs lang lesson_id m⟩
  · rw [fileOf_cls_self, dictGet_dictSet_self]
  · intro k hk
    rw [fileOf_cls_self, dictGet_dictSet_ne _ _ _ _ hk]
  · intro lang' hl
    exact dictGet_cls_other fs lang lesson_id m lang' hl

/-- Witness for C7: writing lesson "1" leaves lesson "2" untouched. -/
theorem C7_cache_put_frame_witness :
    dictGet (fileOf (cache_lesson_sentences
        ⟨[("en", [("2", [("b", "y")])])], []⟩ "en" "1" [("a", "x")]).sentences "en")
      "2" =
      dictGet (fileOf (FSState.mk [("en", [("2", [("b", "y")])])] []).sentences "en")
        "2" :=
  (C7_cache_put_frame ⟨[("en", [("2", [("b", "y")])])], []⟩ "en" "1"
    [("a", "x")]).2.1 "2" (by decide)

/-- Claim C8: reading the cache of a language whose store file does not
exist returns the empty state, auto-initializes the file to an empty
object, and a subsequent get of any lesson id returns the empty mapping. -/
theorem C8_auto_init (fs : FSState) (lang : String)
    (h : dictGet fs.sentences lang = none) :
    (get_cached_sentences fs lang).2 = [] ∧
    dictGet (get_cached_sentences fs lang).1.sentences lang = some [] ∧
    (∀ lesson_id, (dictGet (get_cached_sentences
      (get_cached_sentences fs lang).1 lang).2 lesson_id).getD [] =
        ([] : SentMap)) := by
  have hfile : fileOf fs.sentences lang = [] := by unfold fileOf; rw [h]; rfl
  refine ⟨?_, ?_, ?_⟩
  · rw [get_cached_sentences_spec]
    exact hfile
  · rw [get_cached_sentences_spec]
    simp only
    rw [dictGet_create_self, hfile]
  · intro lesson_id
    rw [get_cached_sentences_spec]
    simp only
    rw [get_cached_sentences_spec]
    simp only
    rw [fileOf_create, hfile]
    rfl

/-- Witness for C8 on an entirely empty filesystem. -/
theorem C8_auto_init_witness :
    (get_cached_sentences ⟨[], []⟩ "en").2 = [] :=
  (C8_auto_init ⟨[], []⟩ "en" rfl).1

/-- Claim C9: on the cache-hit path, if every source-side SoundId is a key
of the destination entry the emission loop completes; and there is a cache
state violating that assumption (a SoundId only on the source side) on
which the run errors out instead of skipping the sentence. -/
theorem C9_hit_key_assumption :
    (∀ (dest html : String) (s2 l : SentMap) (fs : FSState),
      (∀ p, p ∈ l → (dictGet s2 p.1).isSome = true) →
      (hit_loop dest html s2 l fs).ok = true) ∧
    (generate_deck (fun _ _ => .transient) "en" "de" 1 1
      ⟨[("en", [("1", [("a", "x")])]), ("de", [("1", [("b", "y")])])], []⟩
      3).isAborted = true := by
  constructor
  · intro dest html s2 l fs h
    rw [hit_loop_ok]
    exact hitOk_of_subset s2 l h
  · decide

/-- Witness for C9's completion half on a matching one-key cache pair. -/
theorem C9_hit_key_assumption_witness :
    (hit_loop "de" "h" [("a", "y")] [("a", "x")] ⟨[], []⟩).ok = true :=
  C9_hit_key_assumption.1 "de" "h" [("a", "y")] [("a", "x")] ⟨[], []⟩ (by decide)

/-- Claim C2: after a successful sync pass, for every lesson of the range
the src cache has a non-empty entry exactly when the dest cache does —
each lesson's two maps are persisted together after a complete parse. -/
theorem C2_cache_completeness (remote : Remote) (src dest : String)
    (start endL fuel : Nat) (fs0 : FSState) (st' : EngineSt)
    (hrun : generate_deck remote src dest start endL fs0 fuel = .done st')
    (i : Nat) (h1 : start ≤ i) (h2 : i ≤ endL) :
    (entryOf st'.fs.sentences src (toString i) ≠ [] ↔
      entryOf st'.fs.sentences dest (toString i) ≠ []) :=
  not_iff_not.mpr (run_done_iff remote src dest endL fuel start 0 _ st' hrun i h1 h2)

def C2row : Row :=
  [⟨"Hello", [], none⟩, ⟨"", [["x"], ["Hallo"]], none⟩, ⟨"", [], some "a1"⟩]

def C2rem : Remote := fun _ _ => .page [C2row]

/-- Witness for C2 on a one-lesson fetch run that completes. -/
theorem C2_cache_completeness_witness :
    (entryOf (outSt (generate_deck C2rem "en" "de" 1 1 ⟨[], []⟩ 3)).fs.sentences "en"
        (toString 1) ≠ [] ↔
      entryOf (outSt (generate_deck C2rem "en" "de" 1 1 ⟨[], []⟩ 3)).fs.sentences "de"
        (toString 1) ≠ []) :=
  C2_cache_completeness C2rem "en" "de" 1 1 3 ⟨[], []⟩ _ (by decide) 1 (by decide)
    (by decide)

/-- Claim C1: over a range whose lessons are all pre-cached (both entries
non-empty), a run performs zero remote lesson-page fetches; a second run
over the filesystem the first one left performs zero lesson fetches and
zero audio fetches and emits exactly the same note sequence; and no audio
fetch is ever redundant — `download_audio` fetches only absent files. -/
theorem C1_idempotent_resync (remote : Remote) (src dest : String)
    (start endL fuel : Nat) (fs0 : FSState)
    (hall : ∀ j, start ≤ j → j ≤ endL →
      entryOf fs0.sentences src (toString j) ≠ [] ∧
      entryOf fs0.sentences dest (toString j) ≠ []) :
    (outSt (generate_deck remote src dest start endL fs0 fuel)).lessonFetches = 0 ∧
    (outSt (generate_deck remote src dest start endL
      (outSt (generate_deck remote src dest start endL fs0 fuel)).fs
      fuel)).lessonFetches = 0 ∧
    (outSt (generate_deck remote src dest start endL
      (outSt (generate_deck remote src dest start endL fs0 fuel)).fs
      fuel)).audioFetches = 0 ∧
    (outSt (generate_deck remote src dest start endL
      (outSt (generate_deck remote src dest start endL fs0 fuel)).fs fuel)).notes =
      (outSt (generate_deck remote src dest start endL fs0 fuel)).notes ∧
    (∀ fs lang sound_id, (download_audio fs lang sound_id).fetched = true →
      audio_filename lang sound_id ∉ fs.audio) := by
  have hframe := run_allhit_frame remote src dest endL fuel start 0
    ⟨fs0, [], [], [], 0, 0⟩ hall
  have htwice := run_twice remote src dest endL fuel start 0 0
    ⟨fs0, [], [], [], 0, 0⟩
    ⟨(outSt (generate_deck remote src dest start endL fs0 fuel)).fs, [], [], [], 0, 0⟩
    hall hframe.1 (fun x hx => hx)
  obtain ⟨d, hd1, hd2, hd3, hd4, hd5, hd6, hd7, hd8⟩ := htwice
  refine ⟨hframe.2, hd8, hd7, ?_, download_audio_fetched⟩
  rw [show (generate_deck remote src dest start endL
      (outSt (generate_deck remote src dest start endL fs0 fuel)).fs fuel) =
    run_loop remote src dest endL fuel start 0
      ⟨(outSt (generate_deck remote src dest start endL fs0 fuel)).fs,
        [], [], [], 0, 0⟩ from rfl]
  rw [hd2]
  rw [show (generate_deck remote src dest start endL fs0 fuel) =
    run_loop remote src dest endL fuel start 0 ⟨fs0, [], [], [], 0, 0⟩ from rfl]
  rw [hd1]

def C1fs : FSState :=
  ⟨[("en", [("1", [("a1", "Hello")])]), ("de", [("1", [("a1", "Hallo")])])], []⟩

/-- Witness for C1 over a pre-populated one-lesson cache. -/
theorem C1_idempotent_resync_witness :
    (outSt (generate_deck (fun _ _ => .transient) "en" "de" 1 1 C1fs
      3)).lessonFetches = 0 ∧
    (outSt (generate_deck (fun _ _ => .transient) "en" "de" 1 1
      (outSt (generate_deck (fun _ _ => .transient) "en" "de" 1 1 C1fs 3)).fs
      3)).notes =
      (outSt (generate_deck (fun _ _ => .transient) "en" "de" 1 1 C1fs 3)).notes := by
  have := C1_idempotent_resync (fun _ _ => .transient) "en" "de" 1 1 3 C1fs
    (by
      intro j hj1 hj2
      have : j = 1 := by omega
      subst this
      constructor <;> decide)
  exact ⟨this.1, this.2.2.2.1⟩

/-- Claim C3: a run whose lesson fetch hits a connection reset on attempt 1
and succeeds on attempt 2 emits the same notes, performs the same audio
work and persists the same sentence-cache entries as a run that succeeds
immediately; the retry targets the same lesson id (the two runs differ
only by the one extra failed lesson fetch). -/
theorem C3_retry_boundary (r1 r2 : Remote) (src dest : String) (i fuel : Nat)
    (fs0 : FSState)
    (hmiss : entryOf fs0.sentences src (toString i) = [] ∨
      entryOf fs0.sentences dest (toString i) = [])
    (hfail : r1 (i + 161) 0 = .transient)
    (hshift : ∀ b, r1 (i + 161) (b + 1) = r2 (i + 161) b) :
    (∀ lang k,
      entryOf (outSt (generate_deck r1 src dest i i fs0 (fuel + 2))).fs.sentences
          lang k =
        entryOf (outSt (generate_deck r2 src dest i i fs0 (fuel + 1))).fs.sentences
          lang k) ∧
    (outSt (generate_deck r1 src dest i i fs0 (fuel + 2))).fs.audio =
      (outSt (generate_deck r2 src dest i i fs0 (fuel + 1))).fs.audio ∧
    (outSt (generate_deck r1 src dest i i fs0 (fuel + 2))).notes =
      (outSt (generate_deck r2 src dest i i fs0 (fuel + 1))).notes ∧
    (outSt (generate_deck r1 src dest i i fs0 (fuel + 2))).media =
      (outSt (generate_deck r2 src dest i i fs0 (fuel + 1))).media ∧
    (outSt (generate_deck r1 src dest i i fs0 (fuel + 2))).audioFetches =
      (outSt (generate_deck r2 src dest i i fs0 (fuel + 1))).audioFetches ∧
    (outSt (generate_deck r1 src dest i i fs0 (fuel + 2))).lessonFetches =
      (outSt (generate_deck r2 src dest i i fs0 (fuel + 1))).lessonFetches + 1 := by
  have h : ¬i > i := by omega
  rw [show generate_deck r1 src dest i i fs0 (fuel + 2) =
    run_loop r1 src dest i (fuel + 1 + 1) i 0 ⟨fs0, [], [], [], 0, 0⟩ from rfl]
  rw [show generate_deck r2 src dest i i fs0 (fuel + 1) =
    run_loop r2 src dest i (fuel + 1) i 0 ⟨fs0, [], [], [], 0, 0⟩ from rfl]
  rw [run_loop_miss_transient_eq r1 src dest i (fuel + 1) i 0
    ⟨fs0, [], [], [], 0, 0⟩ h hmiss hfail]
  have hsh := run_retry_shift r1 r2 src dest i (fuel + 1) 0
    { EngineSt.mk fs0 [] [] [] 0 0 with
      fs := (get_cached_lesson_sentences fs0 src dest (toString i)).fs
      log := ([] : List String) ++ ["\rFetching lesson " ++ toString i ++ "..."]
      lessonFetches := 0 + 1 }
    ⟨fs0, [], [], [], 0, 0⟩ hshift rfl rfl rfl rfl hmiss
  obtain ⟨he, ha, hn, hm, hf, hc⟩ := hsh
  refine ⟨he, ha, hn, hm, hf, ?_⟩
  exact (by simpa using hc)

def C3r1 : Remote := fun _ a => if a = 0 then .transient else .page []

def C3r2 : Remote := fun _ _ => .page []

/-- Witness for C3: reset on attempt 1, success on attempt 2, empty page. -/
theorem C3_retry_boundary_witness :
    (outSt (generate_deck C3r1 "en" "de" 1 1 ⟨[], []⟩ 3)).notes =
      (outSt (generate_deck C3r2 "en" "de" 1 1 ⟨[], []⟩ 2)).notes :=
  (C3_retry_boundary C3r1 C3r2 "en" "de" 1 1 ⟨[], []⟩ (Or.inl rfl) rfl
    (fun b => by simp [C3r1, C3r2])).2.2.1

/-- Claim C10: the lesson-page URL is the deterministic function of
(src, dest, i) whose lesson-number component is `i + 161`; a single-lesson
run depends on the remote only through that number; and the cache key the
run persists under, and the lesson id it reports on stdout, are both `i`
itself. -/
theorem C10_url_offset (src dest : String) (i : Nat) :
    lesson_link src dest i = "https://www.50languages.com/" ++ src ++
      "/learn/phrasebook-lessons/" ++ toString (i + 161) ++ "/" ++ dest ∧
    (∀ (r1 r2 : Remote) (fuel a : Nat) (st : EngineSt),
      (∀ b, r1 (i + 161) b = r2 (i + 161) b) →
      run_loop r1 src dest i fuel i a st = run_loop r2 src dest i fuel i a st) ∧
    (∀ (remote : Remote) (fuel a : Nat) (st : EngineSt) (rows : List Row)
      (m1 m2 : SentMap),
      (entryOf st.fs.sentences src (toString i) = [] ∨
        entryOf st.fs.sentences dest (toString i) = []) →
      remote (i + 161) a = .page rows →
      (process_rows dest (lesson_link_html (lesson_link src dest i)) rows [] []
        (get_cached_lesson_sentences st.fs src dest (toString i)).fs).maps =
        some (m1, m2) →
      entryOf (outSt (run_loop remote src dest i (fuel + 1) i a st)).fs.sentences
          dest (toString i) = m2 ∧
      entryOf (outSt (run_loop remote src dest i (fuel + 1) i a st)).fs.sentences
          src (toString i) = (if src = dest then m2 else m1) ∧
      (outSt (run_loop remote src dest i (fuel + 1) i a st)).log =
        st.log ++ ["\rFetching lesson " ++ toString i ++ "..."]) := by
  refine ⟨rfl, fun r1 r2 => run_single_agree r1 r2 src dest i, ?_⟩
  intro remote fuel a st rows m1 m2 hmiss hrem hmaps
  have h : ¬i > i := by omega
  rw [run_loop_miss_page_eq remote src dest i fuel i a st rows h hmiss hrem]
  dsimp only
  rw [hmaps]
  dsimp only
  rw [run_loop_done_of_gt remote src dest i fuel (i + 1) 0 _ (by omega)]
  refine ⟨?_, ?_, ?_⟩
  · simp only [outSt]
    exact (entryOf_write2_self _ _ _ _ m1 m2).1
  · simp only [outSt]
    exact (entryOf_write2_self _ _ _ _ m1 m2).2
  · simp [outSt, stepRows]

def C10row : Row :=
  [⟨"A", [], none⟩, ⟨"", [["x"], ["B"]], none⟩, ⟨"", [], some "a1"⟩]

def C10rem : Remote := fun _ _ => .page [C10row]

/-- Witness for C10's cache-key part on a concrete one-row fetch. -/
theorem C10_url_offset_witness :
    entryOf (outSt (run_loop C10rem "en" "de" 1 (2 + 1) 1 0
        ⟨⟨[], []⟩, [], [], [], 0, 0⟩)).fs.sentences "de" (toString 1) =
      [("a1", "B")] :=
  ((C10_url_offset "en" "de" 1).2.2 C10rem 2 0 ⟨⟨[], []⟩, [], [], [], 0, 0⟩
    [C10row] [("a1", "A")] [("a1", "B")] (Or.inl rfl) rfl (by decide)).1

/-- Claim C6 (amended): a parse failure aborts the run at once — it is not
retried, no retry attempt consults the remote again, and nothing is
persisted for the failing lesson; on such an abort every earlier lesson of
the range has a persisted entry in both language stores; and a lesson
whose cached entries are non-empty is handled by the cache-hit emission
loop with no remote lesson fetch for it when a run reaches it (a lesson
cached with empty maps is fetched again instead). -/
theorem C6_parse_abort (src dest : String) (endL : Nat) :
    (∀ (remote : Remote) (fuel i attempt : Nat) (st : EngineSt) (rows : List Row),
      ¬i > endL →
      (entryOf st.fs.sentences src (toString i) = [] ∨
        entryOf st.fs.sentences dest (toString i) = []) →
      remote (i + 161) attempt = .page rows →
      (process_rows dest (lesson_link_html (lesson_link src dest i)) rows [] []
        (get_cached_lesson_sentences st.fs src dest (toString i)).fs).maps = none →
      run_loop remote src dest endL (fuel + 1) i attempt st = .aborted i
        (stepRows
          { st with
            fs := (get_cached_lesson_sentences st.fs src dest (toString i)).fs
            log := st.log ++ ["\rFetching lesson " ++ toString i ++ "..."]
            lessonFetches := st.lessonFetches + 1 }
          (process_rows dest (lesson_link_html (lesson_link src dest i)) rows [] []
            (get_cached_lesson_sentences st.fs src dest (toString i)).fs))) ∧
    (∀ (remote : Remote) (fuel start attempt j : Nat) (st st' : EngineSt),
      run_loop remote src dest endL fuel start attempt st = .aborted j st' →
      ∀ m, start ≤ m → m < j →
        (dictGet (fileOf st'.fs.sentences src) (toString m)).isSome = true ∧
        (dictGet (fileOf st'.fs.sentences dest) (toString m)).isSome = true) ∧
    (∀ (remote : Remote) (fuel i attempt : Nat) (st : EngineSt),
      ¬i > endL →
      entryOf st.fs.sentences src (toString i) ≠ [] →
      entryOf st.fs.sentences dest (toString i) ≠ [] →
      run_loop remote src dest endL (fuel + 1) i attempt st =
        (if (hitStep src dest i st).2 then
          run_loop remote src dest endL fuel (i + 1) 0 (hitStep src dest i st).1
        else .aborted i (hitStep src dest i st).1) ∧
      (hitStep src dest i st).1.lessonFetches = st.lessonFetches) := by
  refine ⟨?_, ?_, ?_⟩
  · intro remote fuel i attempt st rows hle hmiss hrem hmaps
    rw [run_loop_miss_page_eq remote src dest endL fuel i attempt st rows hle hmiss hrem]
    dsimp only
    rw [hmaps]
  · intro remote fuel start attempt j st st' hrun
    exact run_aborted_cached remote src dest endL fuel start attempt st j st' hrun
  · intro remote fuel i attempt st hle h1 h2
    exact ⟨run_loop_hit_eq remote src dest endL fuel i attempt st hle h1 h2,
      hitStep_lessonFetches src dest i st⟩

/-- Remote for the C6 counterexample first run: lesson 1 (URL number 162)
is an empty page — fully processed, cached as empty maps; lesson 2 (163)
has a row with no cells — a parse failure. -/
def C6remA : Remote := fun n _ => if n = 162 then .page [] else .page [[]]

/-- Same world except lesson 1's page never loads. -/
def C6remB : Remote := fun n _ => if n = 162 then .transient else .page [[]]

/-- Counterexample to C6 as stated: with `C6remA` over range [1, 2] the run
aborts at lesson 2 and lesson 1 is fully processed and durably cached
(entries exist in both stores), yet re-running the same range does not
skip lesson 1 via the cache-hit path: the re-run performs two lesson
fetches (re-fetching lesson 1, whose cached entry is empty, then lesson
2), and its outcome depends on the remote's behavior at lesson 1's URL —
with `C6remB` it spins in the retry loop instead of using the cache. -/
theorem C6_parse_abort_counterexample :
    (generate_deck C6remA "en" "de" 1 2 ⟨[], []⟩ 5).isAborted = true ∧
    (dictGet (fileOf (outSt (generate_deck C6remA "en" "de" 1 2 ⟨[], []⟩
      5)).fs.sentences "en") "1").isSome = true ∧
    (dictGet (fileOf (outSt (generate_deck C6remA "en" "de" 1 2 ⟨[], []⟩
      5)).fs.sentences "de") "1").isSome = true ∧
    (outSt (generate_deck C6remA "en" "de" 1 2
      (outSt (generate_deck C6remA "en" "de" 1 2 ⟨[], []⟩ 5)).fs
      5)).lessonFetches = 2 ∧
    (generate_deck C6remB "en" "de" 1 2
      (outSt (generate_deck C6remA "en" "de" 1 2 ⟨[], []⟩ 5)).fs 5).isFuelOut =
      true := by
  refine ⟨?_, ?_, ?_, ?_, ?_⟩ <;> decide

/-- Witness for C6: the aborted first run of the counterexample world has
lesson 1 cached in both stores. -/
theorem C6_parse_abort_witness :
    (dictGet (fileOf (outSt (generate_deck C6remA "en" "de" 1 2 ⟨[], []⟩
      5)).fs.sentences "en") (toString 1)).isSome = true ∧
    (dictGet (fileOf (outSt (generate_deck C6remA "en" "de" 1 2 ⟨[], []⟩
      5)).fs.sentences "de") (toString 1)).isSome = true :=
  (C6_parse_abort "en" "de" 2).2.1 C6remA 5 1 0 2 ⟨⟨[], []⟩, [], [], [], 0, 0⟩
    (outSt (generate_deck C6remA "en" "de" 1 2 ⟨[], []⟩ 5)) (by decide) 1
    (by decide) (by decide)
